import Mathlib

/-
Verification of the JSON-backend synchronized collection
(signac, src/signac/core/collection_json.py).

Modelling conventions:
- Python strings are modelled as lists of Unicode code points (`List Nat`);
  Python `bytes` holding UTF-8 JSON text are modelled the same way (the
  serializer output is pure ASCII, so code points and bytes coincide there).
- Machine-level integers are modelled as `Int` / `Nat`; the JSON value trees
  carry `Int` numbers (floats are outside the model).
- `json.dumps` (default settings: `ensure_ascii=True`,
  separators `", "` / `": "`, `sort_keys=False`) and `json.loads` (default
  strict mode) from the Python standard library are modelled by the
  executable functions `dumps` and `loads` below.
- Side-effecting methods are embedded as explicit state-passing functions;
  the filesystem and the process-wide buffer are explicit states.
-/

namespace Signac

/-- A Unicode scalar value: a code point outside the surrogate range.
Lean strings only hold scalar values; the model states JSON round-trip
results for Python strings made of scalar values. -/
def scalarCP (c : Nat) : Bool := c < 0xD800 || (0xE000 ≤ c && c < 0x110000)

/-- Fuel-indexed digit expansion: with fuel exceeding the digit count the
result is the decimal representation, most significant digit first. -/
def natReprAux : Nat → Nat → List Nat
  | 0, _ => []
  | fuel + 1, n => if n < 10 then [48 + n] else natReprAux fuel (n / 10) ++ [48 + n % 10]

/-- Decimal digit code points of a natural number, most significant first
(`"0"` for `0`), as produced by Python `str(int)` for nonnegative input
(`n + 1` units of fuel always cover all digits of `n`). -/
def natRepr (n : Nat) : List Nat := natReprAux (n + 1) n

/-- Decimal code points of an integer, as produced by Python `str(int)`. -/
def intRepr (n : Int) : List Nat :=
  if n < 0 then 45 :: natRepr n.natAbs else natRepr n.toNat

/-- A Python mapping key as it can occur in a JSON-bound document tree:
a string, an integer, a boolean or `None`. -/
inductive PyKey where
  | str (s : List Nat)
  | int (n : Int)
  | bool (b : Bool)
  | none

/-- A Python value tree of "base type": JSON-compatible scalars, lists and
dicts.  Dicts are insertion-ordered association lists, as Python dicts are. -/
inductive PyValue where
  | null
  | bool (b : Bool)
  | int (n : Int)
  | str (s : List Nat)
  | list (xs : List PyValue)
  | dict (es : List (PyKey × PyValue))

/-- Python `str(key)` on a mapping key (`str` is identity on strings,
`"True"`/`"False"` on booleans, `"None"` on `None`, decimal on integers). -/
def pyStr : PyKey → List Nat
  | .str s => s
  | .int n => intRepr n
  | .bool true => [84, 114, 117, 101]
  | .bool false => [70, 97, 108, 115, 101]
  | .none => [78, 111, 110, 101]

/-- Python `==` on mapping keys (note `True == 1` and `False == 0` in
Python; strings never equal numbers). -/
def pyKeyEq : PyKey → PyKey → Bool
  | .str a, .str b => a == b
  | .int m, .int n => m == n
  | .bool a, .bool b => a == b
  | .bool a, .int n => (if a then (1 : Int) else 0) == n
  | .int n, .bool a => n == (if a then (1 : Int) else 0)
  | .none, .none => true
  | _, _ => false

/-- Inserting a binding into a Python dict (modelled as an ordered
association list): an existing equal key keeps its position and original
key object and gets the new value; a new key is appended. -/
def dictInsert : List (PyKey × PyValue) → PyKey → PyValue → List (PyKey × PyValue)
  | [], k, v => [(k, v)]
  | (k', v') :: rest, k, v =>
      if pyKeyEq k' k then (k', v) :: rest else (k', v') :: dictInsert rest k v

/-- Building a Python dict from a sequence of bindings in order (the
semantics of a dict comprehension and of `dict(pairs)`). -/
def dictFromPairsAux : List (PyKey × PyValue) → List (PyKey × PyValue) → List (PyKey × PyValue)
  | acc, [] => acc
  | acc, (k, v) :: ps => dictFromPairsAux (dictInsert acc k v) ps

/-- The Python dict obtained from a list of bindings inserted in order. -/
def dictFromPairs (ps : List (PyKey × PyValue)) : List (PyKey × PyValue) :=
  dictFromPairsAux [] ps

mutual
/-- Value semantics of `_convert_key_to_str` (collection_json.py): recursively
convert non-string keys to strings for (potentially nested) input collections.
Each dict is rebuilt by a dict comprehension, so coerced keys that collide
with other keys overwrite their value.  The deprecation warnings the source
emits are side effects; they are modelled separately by
`_convert_key_warnings`. -/
def _convert_key_to_str : PyValue → PyValue
  | .null => .null
  | .bool b => .bool b
  | .int n => .int n
  | .str s => .str s
  | .list xs => .list (convList xs)
  | .dict es => .dict (dictFromPairs (convEntries es))

/-- `_convert_key_to_str` mapped over the elements of a list. -/
def convList : List PyValue → List PyValue
  | [] => []
  | x :: xs => _convert_key_to_str x :: convList xs

/-- The bindings produced by the dict comprehension in `_convert_key_to_str`,
in iteration order, before dict insertion collapses colliding keys:
`_str_key` applied to the key, the conversion applied to the value. -/
def convEntries : List (PyKey × PyValue) → List (PyKey × PyValue)
  | [] => []
  | (k, v) :: rest => (.str (pyStr k), _convert_key_to_str v) :: convEntries rest
end

/-- Is a key already a string (no warning, no coercion)? -/
def isStrKey : PyKey → Bool
  | .str _ => true
  | _ => false

mutual
/-- Number of `DeprecationWarning`s emitted by `_convert_key_to_str`:
one per non-string key encountered while rebuilding the tree (the
comprehension visits every input binding, colliding or not). -/
def _convert_key_warnings : PyValue → Nat
  | .null => 0
  | .bool _ => 0
  | .int _ => 0
  | .str _ => 0
  | .list xs => warnList xs
  | .dict es => warnEntries es

/-- Warnings emitted across the elements of a list. -/
def warnList : List PyValue → Nat
  | [] => 0
  | x :: xs => _convert_key_warnings x + warnList xs

/-- Warnings emitted across the bindings of a dict. -/
def warnEntries : List (PyKey × PyValue) → Nat
  | [] => 0
  | (k, v) :: rest =>
      (if isStrKey k then 0 else 1) + _convert_key_warnings v + warnEntries rest
end

/-! ### The JSON wire format: `json.dumps` with default options -/

/-- Lowercase hexadecimal digit code point for a value below 16
(as produced by Python's `'\u%04x'` formatting of escapes). -/
def hexDigitCP (d : Nat) : Nat := if d < 10 then 48 + d else 87 + d

/-- The four lowercase hex digit code points of a value below `0x10000`. -/
def hex4 (n : Nat) : List Nat :=
  [hexDigitCP (n / 4096 % 16), hexDigitCP (n / 256 % 16),
   hexDigitCP (n / 16 % 16), hexDigitCP (n % 16)]

/-- How `json.dumps` (with `ensure_ascii=True`, the default) renders one
code point of a string: printable ASCII other than `"` and `\` is literal;
`\` `"` and the short control escapes use two-character escapes; every other
code point below `0x10000` becomes `\uXXXX`; astral code points become a
surrogate pair of `\uXXXX` escapes. -/
def escCode (c : Nat) : List Nat :=
  if c = 92 then [92, 92]
  else if c = 34 then [92, 34]
  else if c = 8 then [92, 98]
  else if c = 9 then [92, 116]
  else if c = 10 then [92, 110]
  else if c = 12 then [92, 102]
  else if c = 13 then [92, 114]
  else if 32 ≤ c && c ≤ 126 then [c]
  else if c < 65536 then 92 :: 117 :: hex4 c
  else 92 :: 117 :: hex4 (55296 + (c - 65536) / 1024) ++
       (92 :: 117 :: hex4 (56320 + (c - 65536) % 1024))

/-- `json.dumps` escaping applied to a whole string (without the enclosing
quotes). -/
def escString : List Nat → List Nat
  | [] => []
  | c :: cs => escCode c ++ escString cs

/-- How `json.dumps` renders a non-string dict key (its default key
coercion): strings stay, integers render in decimal, booleans render as
the JSON literals `true`/`false`, `None` renders as `null`.  After
`_convert_key_to_str` every key is a string, so only the first branch is
exercised by the sync pipeline. -/
def jsonKeyStr : PyKey → List Nat
  | .str s => s
  | .int n => intRepr n
  | .bool true => [116, 114, 117, 101]
  | .bool false => [102, 97, 108, 115, 101]
  | .none => [110, 117, 108, 108]

mutual
/-- `json.dumps` with its default options, as code points: separators are
`", "` and `": "`, keys keep insertion order, all output is ASCII. -/
def dumps : PyValue → List Nat
  | .null => [110, 117, 108, 108]
  | .bool true => [116, 114, 117, 101]
  | .bool false => [102, 97, 108, 115, 101]
  | .int n => intRepr n
  | .str s => 34 :: (escString s ++ [34])
  | .list [] => [91, 93]
  | .list (x :: xs) => 91 :: (dumps x ++ dumpsListTail xs ++ [93])
  | .dict [] => [123, 125]
  | .dict (e :: es) => 123 :: (dumpsEntry e ++ dumpsEntriesTail es ++ [125])

/-- The `", item"` continuation of a JSON array rendering. -/
def dumpsListTail : List PyValue → List Nat
  | [] => []
  | x :: xs => 44 :: 32 :: (dumps x ++ dumpsListTail xs)

/-- One `"key": value` member of a JSON object rendering. -/
def dumpsEntry : PyKey × PyValue → List Nat
  | (k, v) => 34 :: (escString (jsonKeyStr k) ++ (34 :: 58 :: 32 :: dumps v))

/-- The `", "key": value"` continuation of a JSON object rendering. -/
def dumpsEntriesTail : List (PyKey × PyValue) → List Nat
  | [] => []
  | e :: es => 44 :: 32 :: (dumpsEntry e ++ dumpsEntriesTail es)
end

/-! ### The JSON parser: `json.loads` with default (strict) options

The parser mirrors the CPython `json` decoder on the fragment the model
covers: numbers with a fraction or exponent part, and the non-standard
`NaN`/`Infinity` literals, decode to floats in Python and are outside the
integer-valued model (the parser rejects them), and strings decode to
sequences of Unicode scalar values (the decoder's tolerance for lone
surrogate escapes is outside the model).  None of these cases is
reachable from `dumps` output of an integer-valued tree of scalar-value
strings. -/

/-- JSON whitespace as skipped by the decoder: space, tab, newline,
carriage return. -/
def isWsCP (c : Nat) : Bool := c = 32 || c = 9 || c = 10 || c = 13

/-- Drop leading JSON whitespace. -/
def skipWs : List Nat → List Nat
  | [] => []
  | c :: s => if isWsCP c then skipWs s else c :: s

/-- ASCII decimal digit? -/
def isDigitCP (c : Nat) : Bool := 48 ≤ c && c ≤ 57

/-- Split off the maximal leading run of decimal digits. -/
def spanDigits : List Nat → List Nat × List Nat
  | [] => ([], [])
  | c :: cs =>
      if isDigitCP c then
        let (ds, r) := spanDigits cs
        (c :: ds, r)
      else ([], c :: cs)

/-- Value of a list of decimal digit code points, most significant first. -/
def digitsToNat (ds : List Nat) : Nat := ds.foldl (fun a d => a * 10 + (d - 48)) 0

/-- Parse the unsigned integer part of a JSON number: `0` or a nonzero
digit followed by any further digits (the decoder's `(?:0|[1-9]\d*)`). -/
def parseUInt : List Nat → Option (Nat × List Nat)
  | [] => Option.none
  | c :: r =>
      if c = 48 then some (0, r)
      else if 49 ≤ c && c ≤ 57 then
        let (ds, r') := spanDigits r
        some (digitsToNat (c :: ds), r')
      else Option.none

/-- Does the input continue with a fraction or exponent part
(`(?:\.\d+)?(?:[eE][-+]?\d+)?` in the decoder's number pattern)?  If so
the number is a float, which the integer-valued model does not represent. -/
def floatCont : List Nat → Bool
  | [] => false
  | c :: rest =>
      if c = 46 then
        match rest with
        | d :: _ => isDigitCP d
        | [] => false
      else if c = 101 || c = 69 then
        match rest with
        | 43 :: d :: _ => isDigitCP d
        | 45 :: d :: _ => isDigitCP d
        | d :: _ => isDigitCP d
        | [] => false
      else false

/-- Parse a JSON number that denotes an integer (optional minus sign and
integer part; a fraction or exponent part makes it a float, outside the
model). -/
def parseNumber (s : List Nat) : Option (Int × List Nat) :=
  match s with
  | 45 :: r =>
      match parseUInt r with
      | some (m, r') => if floatCont r' then Option.none else some (-(m : Int), r')
      | Option.none => Option.none
  | _ =>
      match parseUInt s with
      | some (m, r') => if floatCont r' then Option.none else some ((m : Int), r')
      | Option.none => Option.none

/-- Value of one hexadecimal digit code point (both cases accepted, as by
`int(…, 16)` in the decoder). -/
def hexVal (c : Nat) : Option Nat :=
  if 48 ≤ c && c ≤ 57 then some (c - 48)
  else if 97 ≤ c && c ≤ 102 then some (c - 87)
  else if 65 ≤ c && c ≤ 70 then some (c - 55)
  else Option.none

/-- Value of a four-hex-digit escape body. -/
def hexVal4 (a b c d : Nat) : Option Nat :=
  match hexVal a, hexVal b, hexVal c, hexVal d with
  | some x, some y, some z, some w => some (4096 * x + 256 * y + 16 * z + w)
  | _, _, _, _ => Option.none

/-- The decoder's table of two-character backslash escapes. -/
def simpleEsc (e : Nat) : Option Nat :=
  if e = 34 then some 34
  else if e = 92 then some 92
  else if e = 47 then some 47
  else if e = 98 then some 8
  else if e = 102 then some 12
  else if e = 110 then some 10
  else if e = 114 then some 13
  else if e = 116 then some 9
  else Option.none

/-- Prepend a code point to the string part of a parse result. -/
def consFst (c : Nat) : Option (List Nat × List Nat) → Option (List Nat × List Nat) :=
  Option.map (fun p => (c :: p.1, p.2))

mutual
/-- Parse the body of a JSON string after its opening quote, returning the
decoded code points and the input after the closing quote.  As in the
decoder: `"` closes the string, `\\` starts an escape, raw control
characters are rejected (strict mode), everything else is literal. -/
def parseStringBody : List Nat → Option (List Nat × List Nat)
  | [] => Option.none
  | c :: s =>
    if c = 34 then some ([], s)
    else if c = 92 then parseEscape s
    else if c < 32 then Option.none
    else consFst c (parseStringBody s)
termination_by s => s.length

/-- Decode what follows a backslash (the decoder's escape dispatch):
`u` starts a four-hex-digit escape, anything else must be in the
two-character table. -/
def parseEscape : List Nat → Option (List Nat × List Nat)
  | [] => Option.none
  | e :: r2 =>
    if e = 117 then parseUEscape r2
    else
      match simpleEsc e with
      | some c2 => consFst c2 (parseStringBody r2)
      | Option.none => Option.none
termination_by s => s.length

/-- Decode the four hex digits of a `\uXXXX` escape; a high surrogate must
be followed by a low-surrogate escape (combining into one astral code
point).  A lone surrogate escape — which the Python decoder would keep as
a lone-surrogate character — is outside the scalar-value model and is
rejected here; `dumps` output of scalar-value strings never contains one. -/
def parseUEscape : List Nat → Option (List Nat × List Nat)
  | a :: b :: c :: d :: r6 =>
    (match hexVal4 a b c d with
     | Option.none => Option.none
     | some n =>
       if 55296 ≤ n && n ≤ 56319 then parseLowSurrogate n r6
       else if 56320 ≤ n && n ≤ 57343 then Option.none
       else consFst n (parseStringBody r6))
  | _ => Option.none
termination_by s => s.length

/-- Decode the low-surrogate escape completing an astral code point. -/
def parseLowSurrogate (hi : Nat) : List Nat → Option (List Nat × List Nat)
  | 92 :: 117 :: a :: b :: c :: d :: r12 =>
    (match hexVal4 a b c d with
     | some lo =>
       if 56320 ≤ lo && lo ≤ 57343 then
         consFst (65536 + (hi - 55296) * 1024 + (lo - 56320)) (parseStringBody r12)
       else Option.none
     | Option.none => Option.none)
  | _ => Option.none
termination_by s => s.length
end

/-- The textual `null` literal after its initial `n`. -/
def parseNullLit : List Nat → Option (PyValue × List Nat)
  | 117 :: 108 :: 108 :: r2 => some (.null, r2)
  | _ => Option.none

/-- The textual `true` literal after its initial `t`. -/
def parseTrueLit : List Nat → Option (PyValue × List Nat)
  | 114 :: 117 :: 101 :: r2 => some (.bool true, r2)
  | _ => Option.none

/-- The textual `false` literal after its initial `f`. -/
def parseFalseLit : List Nat → Option (PyValue × List Nat)
  | 97 :: 108 :: 115 :: 101 :: r2 => some (.bool false, r2)
  | _ => Option.none

/-- Prepend a parsed element to a parsed array continuation. -/
def parseItemsRest (v : PyValue) : Option (List PyValue × List Nat) →
    Option (List PyValue × List Nat)
  | some (vs, r3) => some (v :: vs, r3)
  | Option.none => Option.none

/-- Prepend a parsed member to a parsed object continuation. -/
def parsePairsRest (k : List Nat) (v : PyValue) :
    Option (List (PyKey × PyValue) × List Nat) → Option (List (PyKey × PyValue) × List Nat)
  | some (ps, r5) => some ((PyKey.str k, v) :: ps, r5)
  | Option.none => Option.none

mutual
/-- Fuel-indexed recursive-descent parser for one JSON value, mirroring
the decoder's `scan_once`: skip leading whitespace, then dispatch on the
first code point.  Fuel only bounds nesting-and-length and is given
generously by `loads`.  The parse is split into small dispatch steps, one
per decision the decoder makes. -/
def parseValue : Nat → List Nat → Option (PyValue × List Nat)
  | 0, _ => Option.none
  | f + 1, s0 => parseValueWs f (skipWs s0)
termination_by f _ => (f, 0)

/-- Dispatch after whitespace: empty input fails, otherwise the head code
point decides the value form. -/
def parseValueWs : Nat → List Nat → Option (PyValue × List Nat)
  | _, [] => Option.none
  | f, c :: r => parseValueHead f c r
termination_by f _ => (f, 17)

/-- Head dispatch: `"` starts a string, `[` an array, `{` an object, the
letters `n`/`t`/`f` the literals, and anything else is attempted as a
number (as the decoder's `scan_once` does). -/
def parseValueHead (f c : Nat) (r : List Nat) : Option (PyValue × List Nat) :=
  if c = 34 then Option.map (fun p => (PyValue.str p.1, p.2)) (parseStringBody r)
  else if c = 91 then parseArrayBody f r (skipWs r)
  else if c = 123 then parseObjBody f r (skipWs r)
  else if c = 110 then parseNullLit r
  else if c = 116 then parseTrueLit r
  else if c = 102 then parseFalseLit r
  else Option.map (fun p => (PyValue.int p.1, p.2)) (parseNumber (c :: r))
termination_by (f, 16)

/-- After `[`: a `]` (past whitespace) closes the empty array, anything
else starts the element list (whitespace before the first element is
reconsumed by `parseValue`, as in the decoder). -/
def parseArrayBody (f : Nat) (r : List Nat) : List Nat → Option (PyValue × List Nat)
  | 93 :: r2 => some (.list [], r2)
  | _ => Option.map (fun p => (PyValue.list p.1, p.2)) (parseItems f r)
termination_by _ => (f, 15)

/-- After `{`: a `}` (past whitespace) closes the empty object, anything
else starts the member list; the decoder builds the result dict from the
parsed pairs, later duplicates overwriting earlier ones. -/
def parseObjBody (f : Nat) (r : List Nat) : List Nat → Option (PyValue × List Nat)
  | 125 :: r2 => some (.dict [], r2)
  | _ => Option.map (fun p => (PyValue.dict (dictFromPairs p.1), p.2)) (parsePairs f r)
termination_by _ => (f, 14)

/-- Parse the elements of a nonempty JSON array after its `[`: a value,
then a separator decision. -/
def parseItems : Nat → List Nat → Option (List PyValue × List Nat)
  | 0, _ => Option.none
  | f + 1, s => parseItemsAfter f (parseValue f s)
termination_by f _ => (f, 1)

/-- After one array element parsed, look past whitespace for `,` or `]`. -/
def parseItemsAfter : Nat → Option (PyValue × List Nat) → Option (List PyValue × List Nat)
  | _, Option.none => Option.none
  | f, some (v, r) => parseItemsSep f v (skipWs r)
termination_by f _ => (f, 13)

/-- `,` continues the element list, `]` closes it, anything else is a
syntax error. -/
def parseItemsSep (f : Nat) (v : PyValue) : List Nat → Option (List PyValue × List Nat)
  | 44 :: r2 => parseItemsRest v (parseItems f r2)
  | 93 :: r2 => some ([v], r2)
  | _ => Option.none
termination_by _ => (f, 12)

/-- Parse the members of a nonempty JSON object after its `{`. -/
def parsePairs : Nat → List Nat → Option (List (PyKey × PyValue) × List Nat)
  | 0, _ => Option.none
  | f + 1, s => parsePairsStart f (skipWs s)
termination_by f _ => (f, 2)

/-- A member must start with a `"`-quoted key (the decoder's "Expecting
property name" check). -/
def parsePairsStart : Nat → List Nat → Option (List (PyKey × PyValue) × List Nat)
  | f, 34 :: r => parsePairsKey f (parseStringBody r)
  | _, _ => Option.none
termination_by f _ => (f, 11)

/-- After the key string, expect `:` past whitespace. -/
def parsePairsKey : Nat → Option (List Nat × List Nat) →
    Option (List (PyKey × PyValue) × List Nat)
  | _, Option.none => Option.none
  | f, some (k, r1) => parsePairsColon f k (skipWs r1)
termination_by f _ => (f, 10)

/-- The `:` between key and value. -/
def parsePairsColon (f : Nat) (k : List Nat) : List Nat →
    Option (List (PyKey × PyValue) × List Nat)
  | 58 :: r2 => parsePairsValue f k (parseValue f r2)
  | _ => Option.none
termination_by _ => (f, 9)

/-- After the member's value parsed, look past whitespace for `,` or `}`. -/
def parsePairsValue : Nat → List Nat → Option (PyValue × List Nat) →
    Option (List (PyKey × PyValue) × List Nat)
  | _, _, Option.none => Option.none
  | f, k, some (v, r3) => parsePairsSep f k v (skipWs r3)
termination_by f _ _ => (f, 8)

/-- `,` continues the member list, `}` closes it, anything else is a
syntax error. -/
def parsePairsSep (f : Nat) (k : List Nat) (v : PyValue) : List Nat →
    Option (List (PyKey × PyValue) × List Nat)
  | 44 :: r4 => parsePairsRest k v (parsePairs f r4)
  | 125 :: r4 => some ([(PyKey.str k, v)], r4)
  | _ => Option.none
termination_by _ => (f, 7)
end

/-- `json.loads`: parse one JSON document and require only whitespace after
it.  The fuel `s.length + 1` always suffices (each unit of structure in a
parsed value occupies at least one input code point). -/
def loads (s : List Nat) : Option PyValue :=
  match parseValue (s.length + 1) s with
  | some (v, r) => if skipWs r = [] then some v else Option.none
  | Option.none => Option.none

/-! ### Paths, the filesystem and the file-write traces -/

/-- `os.path.split` (posix): split at the last `/`; a nonempty head that is
not all slashes is stripped of trailing slashes. -/
def os_path_split (p : String) : String × String :=
  let cs := p.data
  let rev := cs.reverse
  let tailCs := (rev.takeWhile (fun c => c ≠ '/')).reverse
  let headCs := (rev.dropWhile (fun c => c ≠ '/')).reverse
  let head :=
    if headCs.isEmpty || headCs.all (fun c => c = '/') then headCs
    else (headCs.reverse.dropWhile (fun c => c = '/')).reverse
  (String.mk head, String.mk tailCs)

/-- `os.path.join` (posix) for two components: an absolute second component
wins; otherwise the parts are joined with `/` unless the head is empty or
already ends in `/`. -/
def os_path_join (d f : String) : String :=
  if f.data.head? = some '/' then f
  else if d = "" then f
  else if d.data.getLast? = some '/' then d ++ f
  else d ++ "/" ++ f

/-- The temporary-file path `_write_to_file` uses under `write_concern`:
`._{token}_{basename}` next to the target, where `token` models the
`uuid.uuid4()` value. -/
def tmpName (filename : String) (token : String) : String :=
  let (dirname, fn) := os_path_split filename
  os_path_join dirname ("._" ++ token ++ "_" ++ fn)

/-- One observable filesystem operation performed by `_write_to_file`. -/
inductive FileOp where
  | openTrunc (p : String)
  | writeBytes (p : String) (b : List Nat)
  | replace (src dst : String)

/-- The filesystem, as path contents. -/
def FS : Type := String → Option (List Nat)

/-- Effect of one operation: `open(p, 'wb')` creates or truncates `p`;
a write appends to the open file; `os.replace` atomically moves the
source over the destination. -/
def applyOp (fs : FS) : FileOp → FS
  | .openTrunc p => fun q => if q = p then some [] else fs q
  | .writeBytes p b => fun q => if q = p then some ((fs p).getD [] ++ b) else fs q
  | .replace src dst =>
      fun q => if q = dst then fs src else if q = src then Option.none else fs q

/-- Effect of a sequence of operations, first to last. -/
def applyTrace (fs : FS) : List FileOp → FS
  | [] => fs
  | op :: ops => applyTrace (applyOp fs op) ops

/-- The sequence of filesystem operations performed by
`JSONCollection._write_to_file(filename, blob, write_concern)`:
with write concern, write the whole blob to the uniquely named temporary
file and atomically replace the target; without, open-truncate-write the
target directly. -/
def _write_to_file_trace (filename : String) (blob : List Nat) (write_concern : Bool)
    (token : String) : List FileOp :=
  if write_concern then
    [.openTrunc (tmpName filename token),
     .writeBytes (tmpName filename token) blob,
     .replace (tmpName filename token) filename]
  else
    [.openTrunc filename, .writeBytes filename blob]

/-- Resulting filesystem after `_write_to_file`. -/
def _write_to_file (fs : FS) (filename : String) (blob : List Nat) (write_concern : Bool)
    (token : String) : FS :=
  applyTrace fs (_write_to_file_trace filename blob write_concern token)

/-! ### The buffer (`FileBuffer` mixin) and the collection instance -/

/-- Update a finite map modelled as a function. -/
def setKey {K V : Type} [DecidableEq K] (m : K → Option V) (k : K) (v : Option V) :
    K → Option V :=
  fun q => if q = k then v else m q

/-- Modelled from the spec: the process-wide buffer store of the
`FileBuffer` mixin (core/buffers.py, not in src/).  `cache` maps a
canonical filename to its last-known serialized blob (a Python value that
may itself be `None`, hence the inner `Option`); `hashes` holds the
optional content fingerprint recorded for a key. -/
structure FileBufferState where
  cache : Option String → Option (Option (List Nat))
  hashes : Option String → Option (Option (List Nat))

/-- Modelled from the spec: the content fingerprint of the stored bytes
("a content fingerprint of the bytes"); modelled as the bytes themselves,
an injective stand-in for the hash digest. -/
def fingerprint (blob : Option (List Nat)) : Option (List Nat) := blob

/-- Modelled from the spec: `_store_to_buffer(path, blob, store_hash)`
installs or overwrites the cached bytes for the path and, when
`store_hash` is set, records the content fingerprint. -/
def _store_to_buffer (st : FileBufferState) (key : Option String)
    (blob : Option (List Nat)) (store_hash : Bool) : FileBufferState :=
  { cache := setKey st.cache key (some blob)
    hashes := if store_hash then setKey st.hashes key (some (fingerprint blob)) else st.hashes }

/-- Modelled from the spec: the global buffered-mode predicate
`_in_buffered_mode` (core/synced_collection.py, not in src/) is true while
the process-wide reentrant scope counter is positive. -/
def _in_buffered_mode (globalCounter : Nat) : Bool := decide (0 < globalCounter)

/-- The per-instance state a `JSONCollection` carries: the canonical
filename stored by the constructor, the write-concern flag, the
per-instance buffering counter, and the buffering-support marker. -/
structure JSONCollectionState where
  _filename : Option String
  _write_concern : Bool
  _buffered : Nat
  _supports_buffering : Bool

/-- Modelled from the spec where it concerns the base-class constructor:
`JSONCollection.__init__` stores `os.path.realpath(filename)` (canonical,
symlink-resolved) unless the filename is `None`; the per-instance
buffering counter starts at zero (base class, not in src/) and the
instance marks itself as supporting buffering.  `resolve` models
`os.path.realpath` on the current filesystem. -/
def JSONCollection_init (resolve : String → String) (filename : Option String)
    (write_concern : Bool) : JSONCollectionState :=
  { _filename := filename.map resolve
    _write_concern := write_concern
    _buffered := 0
    _supports_buffering := true }

/-! ### `_load_from_file`, `_load`, `_sync` -/

/-- `errno.ENOENT`. -/
def ENOENT : Nat := 2

/-- `errno.EACCES` (permission denied). -/
def EACCES : Nat := 13

/-- The outcome the operating system gives the `open`-and-read in
`_load_from_file`: the file's bytes, or an `IOError` with an errno. -/
inductive ReadOutcome where
  | ok (b : List Nat)
  | ioerr (e : Nat)

/-- `json.dumps(None).encode()`, the canonical null-document blob. -/
def jsonNullBlob : List Nat := dumps PyValue.null

/-- `JSONCollection._load_from_file`: return the file's raw bytes; on an
`IOError` with `errno == ENOENT` return the null-document blob.  On any
other `IOError` the `except` block falls through without re-raising, so
the method returns Python `None` (modelled as `.ok Option.none`); the
`Except` codomain records that no exception escapes the method. -/
def _load_from_file (disk : ReadOutcome) : Except Nat (Option (List Nat)) :=
  match disk with
  | .ok b => .ok (some b)
  | .ioerr e => if e = ENOENT then .ok (some jsonNullBlob) else .ok Option.none

/-- A Python exception raised by `json.loads`: `TypeError` when handed
`None`, `JSONDecodeError` on malformed text. -/
inductive PyErr where
  | typeError
  | jsonDecodeError

/-- `json.loads` applied to the object `_load_from_file` or the buffer
produced: bytes parse as JSON; Python `None` raises `TypeError`. -/
def json_loads : Option (List Nat) → Except PyErr PyValue
  | Option.none => .error PyErr.typeError
  | some b =>
    match loads b with
    | some v => .ok v
    | Option.none => .error PyErr.jsonDecodeError

/-- `JSONCollection._load`: under buffered mode (global scope counter
positive or the instance's counter set) consult the buffer, priming it
from disk with a recorded fingerprint on a miss; otherwise read from
disk directly; finally deserialize.  Returns the instance (whose fields
the method never assigns), the outermost outcome (an unhandled errno
would propagate; with `_load_from_file` as written it never does), and
inside it the `json.loads` outcome, the buffer state after the call and
the number of disk reads performed. -/
def _load (globalCounter : Nat) (inst : JSONCollectionState) (st : FileBufferState)
    (disk : ReadOutcome) :
    JSONCollectionState × Except Nat (Except PyErr PyValue × FileBufferState × Nat) :=
  (inst,
    if _in_buffered_mode globalCounter || inst._buffered ≠ 0 then
      match st.cache inst._filename with
      | some blob => .ok (json_loads blob, st, 0)
      | Option.none =>
        match _load_from_file disk with
        | .error e => .error e
        | .ok blob =>
            .ok (json_loads blob, _store_to_buffer st inst._filename blob true, 1)
    else
      match _load_from_file disk with
      | .error e => .error e
      | .ok blob => .ok (json_loads blob, st, 1))

/-- The unified mutable world `_sync` acts on: the buffer store and the
filesystem. -/
structure World where
  buffer : FileBufferState
  fs : FS

/-- `JSONCollection._sync`: serialize `to_base()` output (the plain tree
`data`) through key coercion and `json.dumps`; under buffered mode store
the blob to the buffer entry of the instance's filename (no disk I/O),
otherwise write it through `_write_to_file` with the instance's write
concern.  The write path needs a real filename (`os.path.split` of `None`
would raise, modelled as `Option.none`).  The instance is returned
unchanged (the method assigns no instance field). -/
def _sync (globalCounter : Nat) (inst : JSONCollectionState) (w : World)
    (data : PyValue) (token : String) :
    JSONCollectionState × Option World :=
  let blob := dumps (_convert_key_to_str data)
  (inst,
    if _in_buffered_mode globalCounter || inst._buffered > 0 then
      some { w with buffer := _store_to_buffer w.buffer inst._filename (some blob) false }
    else
      match inst._filename with
      | some p =>
          some { w with fs := _write_to_file w.fs p blob inst._write_concern token }
      | Option.none => Option.none)

/-! ### Validators and the sync driver -/

/-- A validator: a predicate over the plain value tree, signaling a format
violation with a message. -/
def Validator : Type := PyValue → Option String

/-- Modelled from the spec: validators run in registration order against
the `to_base()` output; the first violation aborts the sync. -/
def firstViolation (vs : List Validator) (data : PyValue) : Option String :=
  match vs with
  | [] => Option.none
  | v :: rest =>
    match v data with
    | some e => some e
    | Option.none => firstViolation rest data

/-- Modelled from the spec: the base-class mutate-then-sync driver
(core/synced_collection.py, not in src/).  A mutation updates the
in-memory tree eagerly; `sync()` then runs every registered validator
against the `to_base()` output and, only if all pass, hands the tree to
the backend `_sync`.  The result is the in-memory tree, the world after
the call, and the format error raised, if any (also `none` alongside a
`none` world when the write path lacked a filename). -/
def mutateAndSync (validators : List Validator) (globalCounter : Nat)
    (inst : JSONCollectionState) (w : World) (mem : PyValue)
    (mutate : PyValue → PyValue) (token : String) :
    PyValue × World × Option String :=
  let mem' := mutate mem
  match firstViolation validators mem' with
  | some e => (mem', w, some e)
  | Option.none =>
    match (_sync globalCounter inst w mem' token).2 with
    | some w' => (mem', w', Option.none)
    | Option.none => (mem', w, Option.none)

/-! ### Specification-side definitions and well-formedness predicates -/

mutual
/-- The key-coercion behavior as the specification words it: an equal tree
in which every mapping key is replaced by its string form one-for-one,
every binding kept, string keys and non-mapping values untouched.  This is
the claim's reading of `_convert_key_to_str`, to be compared with the
source's dict-comprehension semantics. -/
def mapKeysNaive : PyValue → PyValue
  | .null => .null
  | .bool b => .bool b
  | .int n => .int n
  | .str s => .str s
  | .list xs => .list (naiveList xs)
  | .dict es => .dict (naiveEntries es)

/-- `mapKeysNaive` over list elements. -/
def naiveList : List PyValue → List PyValue
  | [] => []
  | x :: xs => mapKeysNaive x :: naiveList xs

/-- `mapKeysNaive` over dict bindings: keys coerced in place, one binding
out per binding in. -/
def naiveEntries : List (PyKey × PyValue) → List (PyKey × PyValue)
  | [] => []
  | (k, v) :: rest => (.str (pyStr k), mapKeysNaive v) :: naiveEntries rest
end

/-- The keys of a binding list, in order. -/
def keysOf : List (PyKey × PyValue) → List PyKey
  | [] => []
  | (k, _) :: rest => k :: keysOf rest

mutual
/-- Number of non-string mapping keys in a tree, written independently of
the conversion function (the specification's "a warning for each
non-string key"): at each mapping, the length of the filtered key list,
plus the counts inside the values. -/
def nonStrKeyCount : PyValue → Nat
  | .null => 0
  | .bool _ => 0
  | .int _ => 0
  | .str _ => 0
  | .list xs => nonStrKeyCountL xs
  | .dict es => ((keysOf es).filter (fun k => !isStrKey k)).length + nonStrKeyCountV es

/-- `nonStrKeyCount` summed over list elements. -/
def nonStrKeyCountL : List PyValue → Nat
  | [] => 0
  | x :: xs => nonStrKeyCount x + nonStrKeyCountL xs

/-- `nonStrKeyCount` summed over dict values. -/
def nonStrKeyCountV : List (PyKey × PyValue) → Nat
  | [] => 0
  | (_, v) :: rest => nonStrKeyCount v + nonStrKeyCountV rest
end

/-- Number of bindings of a dict root (0 for non-dicts); used to observe
that coercion can collapse bindings. -/
def entryCount : PyValue → Nat
  | .dict es => es.length
  | _ => 0

mutual
/-- Do all mapping keys, at every depth, hold strings? -/
def allStrKeys : PyValue → Bool
  | .null => true
  | .bool _ => true
  | .int _ => true
  | .str _ => true
  | .list xs => allStrKeysL xs
  | .dict es => allStrKeysE es

/-- `allStrKeys` over list elements. -/
def allStrKeysL : List PyValue → Bool
  | [] => true
  | x :: xs => allStrKeys x && allStrKeysL xs

/-- `allStrKeys` over dict bindings. -/
def allStrKeysE : List (PyKey × PyValue) → Bool
  | [] => true
  | (k, v) :: rest => isStrKey k && allStrKeys v && allStrKeysE rest
end

/-- The coerced string forms of a binding list's keys, in order. -/
def coercedKeys : List (PyKey × PyValue) → List (List Nat)
  | [] => []
  | (k, _) :: rest => pyStr k :: coercedKeys rest

/-- Are the strings pairwise distinct? -/
def strsNodup : List (List Nat) → Bool
  | [] => true
  | s :: ss => ss.all (fun t => !(s == t)) && strsNodup ss

mutual
/-- No two keys of any one mapping, at any depth, collide after coercion
to their string forms. -/
def noColl : PyValue → Bool
  | .null => true
  | .bool _ => true
  | .int _ => true
  | .str _ => true
  | .list xs => noCollL xs
  | .dict es => strsNodup (coercedKeys es) && noCollE es

/-- `noColl` over list elements. -/
def noCollL : List PyValue → Bool
  | [] => true
  | x :: xs => noColl x && noCollL xs

/-- `noColl` over dict bindings (checking the values). -/
def noCollE : List (PyKey × PyValue) → Bool
  | [] => true
  | (_, v) :: rest => noColl v && noCollE rest
end

/-- Every code point of the string is a Unicode scalar value. -/
def scalarStr (s : List Nat) : Bool := s.all scalarCP

/-- A key whose stored string, if any, is made of scalar values. -/
def keyStrOK : PyKey → Bool
  | .str s => scalarStr s
  | _ => true

mutual
/-- Every string in the tree (values and string keys) is made of Unicode
scalar values — the well-formedness a Python value tree has whenever its
strings are ordinary text. -/
def WFstrings : PyValue → Bool
  | .null => true
  | .bool _ => true
  | .int _ => true
  | .str s => scalarStr s
  | .list xs => wfStringsL xs
  | .dict es => wfStringsE es

/-- `WFstrings` over list elements. -/
def wfStringsL : List PyValue → Bool
  | [] => true
  | x :: xs => WFstrings x && wfStringsL xs

/-- `WFstrings` over dict bindings. -/
def wfStringsE : List (PyKey × PyValue) → Bool
  | [] => true
  | (k, v) :: rest => keyStrOK k && WFstrings v && wfStringsE rest
end

/-- A key that holds a string of scalar values. -/
def cleanKey : PyKey → Bool
  | .str s => scalarStr s
  | _ => false

/-- Is the key distinct (under Python key equality) from every key in the
list? -/
def keyNotIn (k : PyKey) : List PyKey → Bool
  | [] => true
  | k' :: ks => !(pyKeyEq k k') && keyNotIn k ks

/-- Are the keys pairwise distinct under Python key equality? -/
def keysNodup : List PyKey → Bool
  | [] => true
  | k :: ks => keyNotIn k ks && keysNodup ks

mutual
/-- The shape `_convert_key_to_str` output always has, and on which
`loads ∘ dumps` is the identity: strings of scalar values everywhere,
every key a scalar-valued string, and the keys of each mapping pairwise
distinct. -/
def Clean : PyValue → Bool
  | .null => true
  | .bool _ => true
  | .int _ => true
  | .str s => scalarStr s
  | .list xs => cleanL xs
  | .dict es => keysNodup (keysOf es) && cleanE es

/-- `Clean` over list elements. -/
def cleanL : List PyValue → Bool
  | [] => true
  | x :: xs => Clean x && cleanL xs

/-- `Clean` over dict bindings. -/
def cleanE : List (PyKey × PyValue) → Bool
  | [] => true
  | (k, v) :: rest => cleanKey k && Clean v && cleanE rest
end

mutual
/-- Structure-size measure used as parser fuel accounting: one unit per
value node plus one per container element. -/
def nodes : PyValue → Nat
  | .null => 1
  | .bool _ => 1
  | .int _ => 1
  | .str _ => 1
  | .list xs => 1 + nodesL xs
  | .dict es => 1 + nodesE es

/-- `nodes` summed over list elements, one extra per element. -/
def nodesL : List PyValue → Nat
  | [] => 0
  | x :: xs => 1 + nodes x + nodesL xs

/-- `nodes` summed over dict values, one extra per binding. -/
def nodesE : List (PyKey × PyValue) → Nat
  | [] => 0
  | (_, v) :: rest => 1 + nodes v + nodesE rest
end

/-- Code points on which a JSON number must stop: not a digit, not a
decimal point, not an exponent marker.  The separators and closers that
follow an embedded number in `dumps` output all satisfy it. -/
def numStop : List Nat → Bool
  | [] => true
  | c :: _ => !(isDigitCP c) && c ≠ 46 && c ≠ 101 && c ≠ 69

/-! ## Theorems -/

/-- Whatever the write-concern setting, `_write_to_file` leaves the full
blob at the target path. -/
theorem write_to_file_target (fs : FS) (p : String) (blob : List Nat) (wc : Bool)
    (token : String) : _write_to_file fs p blob wc token p = some blob := by
  cases wc <;> simp [_write_to_file, _write_to_file_trace, applyTrace, applyOp]

/-- C1: the claim says every non-ENOENT I/O error raised while reading the
backing file propagates unchanged out of `_load_from_file`.  The code does
not: the `except IOError` block has no re-raise, so a non-ENOENT error
(here EACCES, permission denied) is caught, the `if` falls through, and
the method returns Python `None` normally — for every errno the method
returns normally. -/
theorem load_from_file_swallows_non_enoent_ioerror :
    _load_from_file (ReadOutcome.ioerr EACCES) = .ok Option.none
    ∧ ∀ e : Nat, ∃ r, _load_from_file (ReadOutcome.ioerr e) = .ok r := by
  refine ⟨rfl, fun e => ?_⟩
  unfold _load_from_file
  by_cases h : e = ENOENT <;> simp [h]

/-- C9: the constructor stores the canonical (symlink-resolved) form of
the filename, two instances on paths with the same resolution share one
buffer key (their stored filenames coincide, and `_load`/`_sync` key every
buffer operation on that stored filename), and neither `_load` nor `_sync`
ever changes the instance state, its filename included. -/
theorem filename_canonicalized_and_stable
    (resolve : String → String) (p1 p2 : String) (wc1 wc2 : Bool)
    (hsame : resolve p1 = resolve p2) :
    (JSONCollection_init resolve (some p1) wc1)._filename = some (resolve p1)
    ∧ (JSONCollection_init resolve (some p1) wc1)._filename
        = (JSONCollection_init resolve (some p2) wc2)._filename
    ∧ (∀ g inst st disk, (_load g inst st disk).1 = inst)
    ∧ (∀ g inst w data token, (_sync g inst w data token).1 = inst) :=
  ⟨rfl, by simp [JSONCollection_init, hsame], fun _ _ _ _ => rfl, fun _ _ _ _ _ => rfl⟩

/-- Witness for `filename_canonicalized_and_stable` at a concrete
resolver and path. -/
theorem filename_canonicalized_and_stable_instance :
    (JSONCollection_init id (some "/data/doc.json") true)._filename
        = some (id "/data/doc.json")
    ∧ (JSONCollection_init id (some "/data/doc.json") true)._filename
        = (JSONCollection_init id (some "/data/doc.json") false)._filename :=
  ⟨(filename_canonicalized_and_stable id "/data/doc.json" "/data/doc.json" true false rfl).1,
   (filename_canonicalized_and_stable id "/data/doc.json" "/data/doc.json" true false rfl).2.1⟩

/-- C10: key coercion is not injective.  On `{1: "a", "1": "b"}` the
integer key `1` coerces to the existing string key `"1"`: the result has
strictly fewer bindings, the later binding's value wins, and the only
warning emitted is the one deprecation warning for the integer key —
nothing about the collision. -/
theorem convert_key_coercion_not_injective :
    entryCount (_convert_key_to_str
        (PyValue.dict [(PyKey.int 1, PyValue.str [97]), (PyKey.str [49], PyValue.str [98])]))
      < entryCount
          (PyValue.dict [(PyKey.int 1, PyValue.str [97]), (PyKey.str [49], PyValue.str [98])])
    ∧ _convert_key_to_str
        (PyValue.dict [(PyKey.int 1, PyValue.str [97]), (PyKey.str [49], PyValue.str [98])])
        = PyValue.dict [(PyKey.str [49], PyValue.str [98])]
    ∧ _convert_key_warnings
        (PyValue.dict [(PyKey.int 1, PyValue.str [97]), (PyKey.str [49], PyValue.str [98])])
        = 1 :=
  ⟨by decide, rfl, rfl⟩

/-- C5: `_sync` routes the serialized bytes (key coercion then JSON
encoding of the `to_base` tree) to the buffer entry of the instance's
canonical filename — leaving the filesystem untouched — exactly when the
global scope counter is positive or the instance's buffering counter is
set; otherwise it writes them through to the file on disk — leaving the
buffer untouched — and the target file ends up holding exactly the blob. -/
theorem sync_routing_buffer_or_disk
    (g : Nat) (inst : JSONCollectionState) (w : World) (data : PyValue) (token : String) :
    ((0 < g ∨ 0 < inst._buffered) →
      (_sync g inst w data token).2 =
        some { w with buffer := _store_to_buffer w.buffer inst._filename
                        (some (dumps (_convert_key_to_str data))) false })
    ∧ (¬(0 < g ∨ 0 < inst._buffered) → ∀ p, inst._filename = some p →
      (_sync g inst w data token).2 =
        some { w with fs := _write_to_file w.fs p (dumps (_convert_key_to_str data))
                        inst._write_concern token }
      ∧ _write_to_file w.fs p (dumps (_convert_key_to_str data)) inst._write_concern token p
          = some (dumps (_convert_key_to_str data))) := by
  constructor
  · intro h
    have hc : (_in_buffered_mode g || decide (inst._buffered > 0)) = true := by
      simp [_in_buffered_mode]
      omega
    simp [_sync, hc]
  · intro h p hp
    have hc : (_in_buffered_mode g || decide (inst._buffered > 0)) = false := by
      simp [_in_buffered_mode]
      omega
    exact ⟨by simp [_sync, hc, hp], write_to_file_target w.fs p _ inst._write_concern token⟩

/-- Witness for `sync_routing_buffer_or_disk`: a globally buffered sync
stores to the buffer, an unbuffered sync writes the file. -/
theorem sync_routing_buffer_or_disk_instance :
    (_sync 1 (JSONCollection_init id (some "/d/f.json") false)
        ⟨⟨fun _ => Option.none, fun _ => Option.none⟩, fun _ => Option.none⟩
        (PyValue.bool true) "tok").2 =
      some { buffer := _store_to_buffer ⟨fun _ => Option.none, fun _ => Option.none⟩
                (some "/d/f.json") (some (dumps (_convert_key_to_str (PyValue.bool true)))) false
             fs := fun _ => Option.none }
    ∧ (_sync 0 (JSONCollection_init id (some "/d/f.json") false)
        ⟨⟨fun _ => Option.none, fun _ => Option.none⟩, fun _ => Option.none⟩
        (PyValue.bool true) "tok").2 =
      some { buffer := ⟨fun _ => Option.none, fun _ => Option.none⟩
             fs := _write_to_file (fun _ => Option.none) "/d/f.json"
                     (dumps (_convert_key_to_str (PyValue.bool true))) false "tok" } :=
  ⟨(sync_routing_buffer_or_disk 1 (JSONCollection_init id (some "/d/f.json") false)
      ⟨⟨fun _ => Option.none, fun _ => Option.none⟩, fun _ => Option.none⟩
      (PyValue.bool true) "tok").1 (Or.inl Nat.one_pos),
   ((sync_routing_buffer_or_disk 0 (JSONCollection_init id (some "/d/f.json") false)
      ⟨⟨fun _ => Option.none, fun _ => Option.none⟩, fun _ => Option.none⟩
      (PyValue.bool true) "tok").2 (by simp [JSONCollection_init]) "/d/f.json" rfl).1⟩

/-- C6: under buffered mode, `_load` serves a buffer hit from the cached
bytes with zero disk reads and no state change; on a miss it reads the
file exactly once, primes the buffer entry with the bytes read and records
their content fingerprint, and a subsequent load in the same scope — with
any disk outcome whatsoever — performs zero disk reads. -/
theorem load_buffered_caching
    (g : Nat) (inst : JSONCollectionState) (st : FileBufferState) (disk : ReadOutcome)
    (hb : 0 < g ∨ inst._buffered ≠ 0) :
    (∀ blob, st.cache inst._filename = some blob →
        (_load g inst st disk).2 = .ok (json_loads blob, st, 0))
    ∧ (st.cache inst._filename = Option.none →
        ∀ b, _load_from_file disk = .ok b →
          (_load g inst st disk).2 =
            .ok (json_loads b, _store_to_buffer st inst._filename b true, 1)
          ∧ (_store_to_buffer st inst._filename b true).cache inst._filename = some b
          ∧ (_store_to_buffer st inst._filename b true).hashes inst._filename
              = some (fingerprint b)
          ∧ ∀ disk2, (_load g inst (_store_to_buffer st inst._filename b true) disk2).2 =
              .ok (json_loads b, _store_to_buffer st inst._filename b true, 0)) := by
  have hc : (_in_buffered_mode g || decide (inst._buffered ≠ 0)) = true := by
    simp [_in_buffered_mode]
    omega
  constructor
  · intro blob hhit
    simp only [_load, hc]
    simp [hhit]
  · intro hmiss b hread
    refine ⟨?_, ?_, ?_, ?_⟩
    · simp only [_load, hc]
      simp [hmiss, hread]
    · simp [_store_to_buffer, setKey]
    · simp [_store_to_buffer, setKey]
    · intro disk2
      simp only [_load, hc]
      simp [_store_to_buffer, setKey]

/-- Witness for `load_buffered_caching`: a miss under instance-level
buffering primes the cache entry. -/
theorem load_buffered_caching_instance :
    (_store_to_buffer ⟨fun _ => Option.none, fun _ => Option.none⟩ (some "/d/f.json")
        (some jsonNullBlob) true).cache (some "/d/f.json") = some (some jsonNullBlob) := by
  have h := (load_buffered_caching 0
      { _filename := some "/d/f.json", _write_concern := false,
        _buffered := 1, _supports_buffering := true }
      ⟨fun _ => Option.none, fun _ => Option.none⟩ (ReadOutcome.ioerr ENOENT)
      (Or.inr (by decide))).2 rfl (some jsonNullBlob) rfl
  exact h.2.1

/-- C8: if a registered validator rejects the `to_base()` output during
sync, the sync raises that format error, neither the filesystem nor the
buffer is touched, and the in-memory tree keeps the mutation that
triggered the sync. -/
theorem sync_validation_failure_preserves_state
    (validators : List Validator) (g : Nat) (inst : JSONCollectionState) (w : World)
    (mem : PyValue) (mutate : PyValue → PyValue) (token : String) (e : String)
    (hrej : firstViolation validators (mutate mem) = some e) :
    mutateAndSync validators g inst w mem mutate token = (mutate mem, w, some e) := by
  simp [mutateAndSync, hrej]

/-- Witness for `sync_validation_failure_preserves_state` with a rejecting
validator and a real mutation. -/
theorem sync_validation_failure_preserves_state_instance :
    mutateAndSync [fun _ => some "not JSON-serializable"] 0
      (JSONCollection_init id (some "/d/f.json") false)
      ⟨⟨fun _ => Option.none, fun _ => Option.none⟩, fun _ => Option.none⟩
      PyValue.null (fun _ => PyValue.int 7) "tok" =
    (PyValue.int 7,
     ⟨⟨fun _ => Option.none, fun _ => Option.none⟩, fun _ => Option.none⟩,
     some "not JSON-serializable") :=
  sync_validation_failure_preserves_state [fun _ => some "not JSON-serializable"] 0
    (JSONCollection_init id (some "/d/f.json") false)
    ⟨⟨fun _ => Option.none, fun _ => Option.none⟩, fun _ => Option.none⟩
    PyValue.null (fun _ => PyValue.int 7) "tok" "not JSON-serializable" rfl

/-- C3: with write concern on, `_write_to_file` performs exactly the
trace open-temp, write-temp, atomic-replace: the temporary is the
`._{token}_{basename}` name in the target's directory, the target path is
never opened or written directly, after every prefix of the trace the
target holds either its prior contents or the complete new blob, the final
state holds the blob, and the temporary file is gone at the end. -/
theorem write_concern_atomic_replace
    (fs : FS) (filename : String) (blob : List Nat) (token : String)
    (htmp : tmpName filename token ≠ filename) :
    (_write_to_file_trace filename blob true token =
      [FileOp.openTrunc (os_path_join (os_path_split filename).1
          ("._" ++ token ++ "_" ++ (os_path_split filename).2)),
       FileOp.writeBytes (tmpName filename token) blob,
       FileOp.replace (tmpName filename token) filename])
    ∧ (∀ op ∈ _write_to_file_trace filename blob true token, ∀ b,
         op ≠ FileOp.openTrunc filename ∧ op ≠ FileOp.writeBytes filename b)
    ∧ (∀ i, applyTrace fs ((_write_to_file_trace filename blob true token).take i) filename
          = fs filename
        ∨ applyTrace fs ((_write_to_file_trace filename blob true token).take i) filename
          = some blob)
    ∧ _write_to_file fs filename blob true token filename = some blob
    ∧ _write_to_file fs filename blob true token (tmpName filename token) = Option.none := by
  have hne : ¬(filename = tmpName filename token) := fun h => htmp h.symm
  refine ⟨rfl, ?_, ?_, write_to_file_target fs filename blob true token, ?_⟩
  · intro op hop b
    simp [_write_to_file_trace] at hop
    rcases hop with h | h | h <;> subst h <;>
      exact ⟨by simp [htmp], by simp [htmp]⟩
  · intro i
    match i with
    | 0 => exact Or.inl rfl
    | 1 =>
        left
        simp [_write_to_file_trace, applyTrace, applyOp, hne]
    | 2 =>
        left
        simp [_write_to_file_trace, applyTrace, applyOp, hne]
    | (n + 3) =>
        right
        simp [_write_to_file_trace, applyTrace, applyOp]
  · simp [_write_to_file, _write_to_file_trace, applyTrace, applyOp, htmp]

/-- Python key equality is symmetric. -/
theorem pyKeyEq_symm (a b : PyKey) : pyKeyEq a b = pyKeyEq b a := by
  cases a <;> cases b <;> simp [pyKeyEq] <;>
    first
      | rfl
      | exact eq_comm

/-- `keyNotIn` unfolded to a membership statement. -/
theorem keyNotIn_iff (a : PyKey) (l : List PyKey) :
    keyNotIn a l = true ↔ ∀ b ∈ l, pyKeyEq a b = false := by
  induction l with
  | nil => simp [keyNotIn]
  | cons b l ih => simp [keyNotIn, ih]

/-- Keys of an appended binding list. -/
theorem keysOf_append (a b : List (PyKey × PyValue)) :
    keysOf (a ++ b) = keysOf a ++ keysOf b := by
  induction a with
  | nil => rfl
  | cons e a ih => cases e; simp [keysOf, ih]

/-- Inserting a fresh key appends the binding. -/
theorem dictInsert_append (acc : List (PyKey × PyValue)) (k : PyKey) (v : PyValue)
    (h : ∀ a ∈ keysOf acc, pyKeyEq a k = false) :
    dictInsert acc k v = acc ++ [(k, v)] := by
  induction acc with
  | nil => rfl
  | cons e acc ih =>
      obtain ⟨k', v'⟩ := e
      have hk' : pyKeyEq k' k = false := h k' (by simp [keysOf])
      simp [dictInsert, hk']
      exact ih fun a ha => h a (by simp [keysOf, ha])

/-- Inserting bindings with pairwise-distinct keys, all fresh for the
accumulator, appends them in order. -/
theorem dictFromPairsAux_append : ∀ (ps acc : List (PyKey × PyValue)),
    (∀ k ∈ keysOf ps, ∀ a ∈ keysOf acc, pyKeyEq a k = false) →
    keysNodup (keysOf ps) = true →
    dictFromPairsAux acc ps = acc ++ ps := by
  intro ps
  induction ps with
  | nil => intro acc _ _; simp [dictFromPairsAux]
  | cons e ps ih =>
      intro acc hfresh hnodup
      obtain ⟨k, v⟩ := e
      have hins : dictInsert acc k v = acc ++ [(k, v)] :=
        dictInsert_append acc k v (hfresh k (by simp [keysOf]))
      have hnd : keysNodup (keysOf ps) = true := by
        simp [keysOf, keysNodup] at hnodup
        exact hnodup.2
      have hknotin : keyNotIn k (keysOf ps) = true := by
        simp [keysOf, keysNodup] at hnodup
        exact hnodup.1
      have hstep : dictFromPairsAux (acc ++ [(k, v)]) ps = (acc ++ [(k, v)]) ++ ps := by
        refine ih (acc ++ [(k, v)]) (fun k2 hk2 a ha => ?_) hnd
        rw [keysOf_append] at ha
        rcases List.mem_append.mp ha with ha | ha
        · exact hfresh k2 (by simp [keysOf, hk2]) a ha
        · have hak : a = k := by simpa [keysOf] using ha
          rw [hak]
          exact (keyNotIn_iff k (keysOf ps)).mp hknotin k2 hk2
      rw [dictFromPairsAux, hins, hstep]
      simp

/-- Building a dict from bindings with pairwise-distinct keys is the
identity. -/
theorem dictFromPairs_eq_self (ps : List (PyKey × PyValue))
    (h : keysNodup (keysOf ps) = true) : dictFromPairs ps = ps := by
  have := dictFromPairsAux_append ps [] (by simp [keysOf]) h
  simpa [dictFromPairs] using this

/-- Every key of a dict insertion comes from the accumulator or is the
inserted key. -/
theorem mem_keysOf_dictInsert (b : PyKey) (acc : List (PyKey × PyValue)) (k : PyKey)
    (v : PyValue) (hb : b ∈ keysOf (dictInsert acc k v)) :
    b ∈ keysOf acc ∨ b = k := by
  induction acc with
  | nil => simpa [dictInsert, keysOf] using hb
  | cons e acc ih =>
      obtain ⟨k', v'⟩ := e
      by_cases hk : pyKeyEq k' k = true
      · simp [dictInsert, hk, keysOf] at hb
        rcases hb with rfl | hb
        · exact Or.inl (by simp [keysOf])
        · exact Or.inl (by simp [keysOf, hb])
      · simp [dictInsert, hk, keysOf] at hb
        rcases hb with rfl | hb
        · exact Or.inl (by simp [keysOf])
        · rcases ih hb with h | h
          · exact Or.inl (by simp [keysOf, h])
          · exact Or.inr h

/-- Dict insertion preserves pairwise-distinct keys. -/
theorem dictInsert_keysNodup (acc : List (PyKey × PyValue)) (k : PyKey) (v : PyValue)
    (h : keysNodup (keysOf acc) = true) :
    keysNodup (keysOf (dictInsert acc k v)) = true := by
  induction acc with
  | nil => simp [dictInsert, keysOf, keysNodup, keyNotIn]
  | cons e acc ih =>
      obtain ⟨k', v'⟩ := e
      simp [keysOf, keysNodup] at h
      by_cases hk : pyKeyEq k' k = true
      · simp [dictInsert, hk, keysOf, keysNodup]
        exact h
      · simp [dictInsert, hk, keysOf, keysNodup]
        refine ⟨?_, ih h.2⟩
        rw [keyNotIn_iff]
        intro b hb
        rcases mem_keysOf_dictInsert b acc k v hb with hmem | rfl
        · exact (keyNotIn_iff k' (keysOf acc)).mp h.1 b hmem
        · simpa using hk

/-- The keys of a built dict are pairwise distinct. -/
theorem dictFromPairs_keysNodup (ps : List (PyKey × PyValue)) :
    keysNodup (keysOf (dictFromPairs ps)) = true := by
  suffices h : ∀ acc, keysNodup (keysOf acc) = true →
      keysNodup (keysOf (dictFromPairsAux acc ps)) = true by
    exact h [] (by simp [keysOf, keysNodup])
  induction ps with
  | nil => intro acc hacc; simpa [dictFromPairsAux] using hacc
  | cons e ps ih =>
      intro acc hacc
      obtain ⟨k, v⟩ := e
      exact ih (dictInsert acc k v) (dictInsert_keysNodup acc k v hacc)

/-- Componentwise properties of bindings survive dict insertion. -/
theorem dictInsert_forall {Q : PyKey → Prop} {R : PyValue → Prop}
    (acc : List (PyKey × PyValue)) (k : PyKey) (v : PyValue)
    (ha : ∀ e ∈ acc, Q e.1 ∧ R e.2) (hk : Q k) (hv : R v) :
    ∀ e ∈ dictInsert acc k v, Q e.1 ∧ R e.2 := by
  induction acc with
  | nil =>
      intro e he
      simp [dictInsert] at he
      subst he
      exact ⟨hk, hv⟩
  | cons e0 acc ih =>
      obtain ⟨k', v'⟩ := e0
      intro e he
      by_cases hc : pyKeyEq k' k = true
      · simp [dictInsert, hc] at he
        rcases he with rfl | he
        · exact ⟨(ha (k', v') (by simp)).1, hv⟩
        · exact ha e (by simp [he])
      · simp [dictInsert, hc] at he
        rcases he with rfl | he
        · exact ha (k', v') (by simp)
        · exact ih (fun e2 he2 => ha e2 (by simp [he2])) e he

/-- Componentwise properties of bindings survive building a dict. -/
theorem dictFromPairs_forall {Q : PyKey → Prop} {R : PyValue → Prop}
    (ps : List (PyKey × PyValue)) (hp : ∀ e ∈ ps, Q e.1 ∧ R e.2) :
    ∀ e ∈ dictFromPairs ps, Q e.1 ∧ R e.2 := by
  suffices h : ∀ qs acc, (∀ e ∈ qs, Q e.1 ∧ R e.2) → (∀ e ∈ acc, Q e.1 ∧ R e.2) →
      ∀ e ∈ dictFromPairsAux acc qs, Q e.1 ∧ R e.2 from
    h ps [] hp (by simp)
  intro qs
  induction qs with
  | nil => intro acc _ hacc; simpa [dictFromPairsAux] using hacc
  | cons e0 qs ih =>
      intro acc hqs hacc
      obtain ⟨k, v⟩ := e0
      exact ih (dictInsert acc k v) (fun e2 he2 => hqs e2 (by simp [he2]))
        (dictInsert_forall acc k v hacc (hqs (k, v) (by simp)).1 (hqs (k, v) (by simp)).2)

/-- The keys the dict comprehension produces are the coerced key strings. -/
theorem keysOf_convEntries : ∀ es, keysOf (convEntries es) = (coercedKeys es).map PyKey.str
  | [] => rfl
  | (k, v) :: es => by simp [convEntries, keysOf, coercedKeys, keysOf_convEntries es]

/-- Freshness among string keys is string freshness. -/
theorem keyNotIn_map_str (s : List Nat) :
    ∀ ss : List (List Nat),
      keyNotIn (PyKey.str s) (ss.map PyKey.str) = ss.all (fun t => !(s == t))
  | [] => rfl
  | t :: ss => by simp [keyNotIn, pyKeyEq, keyNotIn_map_str s ss]

/-- Distinctness among string keys is string distinctness. -/
theorem keysNodup_map_str : ∀ ss, keysNodup (ss.map PyKey.str) = strsNodup ss
  | [] => rfl
  | s :: ss => by simp [keysNodup, strsNodup, keyNotIn_map_str, keysNodup_map_str ss]

/-- `allStrKeysE` as a membership statement. -/
theorem allStrKeysE_iff :
    ∀ l, allStrKeysE l = true ↔ ∀ e ∈ l, isStrKey e.1 = true ∧ allStrKeys e.2 = true
  | [] => by simp [allStrKeysE]
  | (k, v) :: l => by
      simp [allStrKeysE, allStrKeysE_iff l]

mutual
/-- Under no post-coercion key collisions, the source's conversion agrees
with the specification's one-for-one key replacement. -/
theorem conv_eq_naive : ∀ v, noColl v = true → _convert_key_to_str v = mapKeysNaive v
  | .null, _ => rfl
  | .bool _, _ => rfl
  | .int _, _ => rfl
  | .str _, _ => rfl
  | .list xs, h => by
      have hL := conv_eq_naiveL xs (by simpa [noColl] using h)
      simp [_convert_key_to_str, mapKeysNaive, hL]
  | .dict es, h => by
      have h' : strsNodup (coercedKeys es) = true ∧ noCollE es = true := by
        simpa [noColl] using h
      have hid : dictFromPairs (convEntries es) = convEntries es := by
        apply dictFromPairs_eq_self
        rw [keysOf_convEntries, keysNodup_map_str]
        exact h'.1
      have hE := conv_eq_naiveE es h'.2
      simp only [_convert_key_to_str, mapKeysNaive]
      rw [hid, hE]

/-- `conv_eq_naive` over list elements. -/
theorem conv_eq_naiveL : ∀ xs, noCollL xs = true → convList xs = naiveList xs
  | [], _ => rfl
  | x :: xs, h => by
      have hx : noColl x = true ∧ noCollL xs = true := by simpa [noCollL] using h
      simp [convList, naiveList, conv_eq_naive x hx.1, conv_eq_naiveL xs hx.2]

/-- `conv_eq_naive` over dict bindings. -/
theorem conv_eq_naiveE : ∀ es, noCollE es = true → convEntries es = naiveEntries es
  | [], _ => rfl
  | (k, v) :: es, h => by
      have hx : noColl v = true ∧ noCollE es = true := by simpa [noCollE] using h
      simp [convEntries, naiveEntries, conv_eq_naive v hx.1, conv_eq_naiveE es hx.2]
end

mutual
/-- After conversion every mapping key at every depth is a string. -/
theorem allStrKeys_conv : ∀ v, allStrKeys (_convert_key_to_str v) = true
  | .null => rfl
  | .bool _ => rfl
  | .int _ => rfl
  | .str _ => rfl
  | .list xs => by
      simp [_convert_key_to_str, allStrKeys]
      exact allStrKeys_convL xs
  | .dict es => by
      simp [_convert_key_to_str, allStrKeys]
      exact (allStrKeysE_iff _).mpr
        (dictFromPairs_forall (Q := fun k => isStrKey k = true)
          (R := fun v => allStrKeys v = true) (convEntries es) (allStrKeys_convE es))

/-- `allStrKeys_conv` over list elements. -/
theorem allStrKeys_convL : ∀ xs, allStrKeysL (convList xs) = true
  | [] => rfl
  | x :: xs => by
      simp [convList, allStrKeysL]
      exact ⟨allStrKeys_conv x, allStrKeys_convL xs⟩

/-- Every binding the comprehension produces has a string key and a
converted value with string keys throughout. -/
theorem allStrKeys_convE :
    ∀ es, ∀ e ∈ convEntries es, isStrKey e.1 = true ∧ allStrKeys e.2 = true
  | [], e, he => absurd he (by simp [convEntries])
  | (k, v) :: es, e, he => by
      rw [convEntries] at he
      rcases List.mem_cons.mp he with rfl | he
      · exact ⟨rfl, allStrKeys_conv v⟩
      · exact allStrKeys_convE es e he
end

mutual
/-- The conversion emits exactly one deprecation warning per non-string
key in the input tree. -/
theorem warns_eq_count : ∀ v, _convert_key_warnings v = nonStrKeyCount v
  | .null => rfl
  | .bool _ => rfl
  | .int _ => rfl
  | .str _ => rfl
  | .list xs => by simp [_convert_key_warnings, nonStrKeyCount, warns_eq_countL xs]
  | .dict es => by simp [_convert_key_warnings, nonStrKeyCount, warns_eq_countE es]

/-- `warns_eq_count` over list elements. -/
theorem warns_eq_countL : ∀ xs, warnList xs = nonStrKeyCountL xs
  | [] => rfl
  | x :: xs => by simp [warnList, nonStrKeyCountL, warns_eq_count x, warns_eq_countL xs]

/-- `warns_eq_count` over dict bindings. -/
theorem warns_eq_countE : ∀ es,
    warnEntries es = ((keysOf es).filter (fun k => !isStrKey k)).length + nonStrKeyCountV es
  | [] => rfl
  | (k, v) :: es => by
      cases hk : isStrKey k <;>
        simp [warnEntries, keysOf, nonStrKeyCountV, hk, warns_eq_count v,
          warns_eq_countE es, List.filter] <;>
        omega
end

/-- C7 (as stated) is refuted: on `{1: "a", "1": "b"}` the conversion is
not the one-for-one key replacement the claim describes — the coerced
integer key collides with the existing string key and a binding is lost. -/
theorem convert_key_collision_counterexample :
    _convert_key_to_str
        (PyValue.dict [(PyKey.int 1, PyValue.str [97]), (PyKey.str [49], PyValue.str [98])])
      ≠ mapKeysNaive
        (PyValue.dict [(PyKey.int 1, PyValue.str [97]), (PyKey.str [49], PyValue.str [98])]) :=
  fun h => absurd (congrArg entryCount h) (by decide)

/-- C7 (amended): provided no two keys of any one mapping collide after
coercion, `_convert_key_to_str` returns the equal tree with every key
replaced by `str(key)` one-for-one and values untouched; unconditionally,
its output has string keys at every depth and it emits exactly one
deprecation warning per non-string key (it is total, hence never
raises). -/
theorem convert_key_to_str_nocollision (T : PyValue) (h : noColl T = true) :
    _convert_key_to_str T = mapKeysNaive T
    ∧ allStrKeys (_convert_key_to_str T) = true
    ∧ _convert_key_warnings T = nonStrKeyCount T :=
  ⟨conv_eq_naive T h, allStrKeys_conv T, warns_eq_count T⟩

/-- Witness for `convert_key_to_str_nocollision` on `{2: "a", "k": null}`
(one coerced key, no collisions). -/
theorem convert_key_to_str_nocollision_instance :
    _convert_key_to_str
        (PyValue.dict [(PyKey.int 2, PyValue.str [97]), (PyKey.str [107], PyValue.null)])
      = mapKeysNaive
        (PyValue.dict [(PyKey.int 2, PyValue.str [97]), (PyKey.str [107], PyValue.null)])
    ∧ allStrKeys (_convert_key_to_str
        (PyValue.dict [(PyKey.int 2, PyValue.str [97]), (PyKey.str [107], PyValue.null)])) = true
    ∧ _convert_key_warnings
        (PyValue.dict [(PyKey.int 2, PyValue.str [97]), (PyKey.str [107], PyValue.null)])
      = nonStrKeyCount
        (PyValue.dict [(PyKey.int 2, PyValue.str [97]), (PyKey.str [107], PyValue.null)]) :=
  convert_key_to_str_nocollision
    (PyValue.dict [(PyKey.int 2, PyValue.str [97]), (PyKey.str [107], PyValue.null)])
    (by decide)

/-- Witness for `write_concern_atomic_replace` at a concrete path and
token. -/
theorem write_concern_atomic_replace_instance :
    _write_to_file (fun _ => Option.none) "/d/f.json"
        (dumps PyValue.null) true "tok" "/d/f.json" = some (dumps PyValue.null)
    ∧ _write_to_file (fun _ => Option.none) "/d/f.json"
        (dumps PyValue.null) true "tok" (tmpName "/d/f.json" "tok") = Option.none :=
  ⟨(write_concern_atomic_replace (fun _ => Option.none) "/d/f.json"
      (dumps PyValue.null) "tok" (by decide)).2.2.2.1,
   (write_concern_atomic_replace (fun _ => Option.none) "/d/f.json"
      (dumps PyValue.null) "tok" (by decide)).2.2.2.2⟩

/-! ### Decimal digits: `str(int)` and its parse -/

/-- Folding a final digit. -/
theorem digitsToNat_append_single (ds : List Nat) (d : Nat) :
    digitsToNat (ds ++ [d]) = 10 * digitsToNat ds + (d - 48) := by
  simp [digitsToNat, List.foldl_append]
  omega

/-- With enough fuel, the digit expansion is nonempty, all digits, decodes
back to the number, and starts with a nonzero digit for nonzero input. -/
theorem natReprAux_spec : ∀ f n, n < f →
    (∀ d ∈ natReprAux f n, isDigitCP d = true)
    ∧ digitsToNat (natReprAux f n) = n
    ∧ (n = 0 → natReprAux f n = [48])
    ∧ (1 ≤ n → ∃ c t, natReprAux f n = c :: t ∧ 49 ≤ c ∧ c ≤ 57) := by
  intro f
  induction f with
  | zero => intro n hn; omega
  | succ f ih =>
      intro n hn
      by_cases h10 : n < 10
      · refine ⟨?_, ?_, ?_, ?_⟩
        · intro d hd
          simp [natReprAux, h10] at hd
          simp [isDigitCP]
          omega
        · simp [natReprAux, h10, digitsToNat]
        · intro h0; simp [natReprAux, h10, h0]
        · intro h1
          exact ⟨48 + n, [], by simp [natReprAux, h10], by omega, by omega⟩
      · have hlt : n / 10 < f := by omega
        obtain ⟨ihd, ihv, _, ihh⟩ := ih (n / 10) hlt
        have hexp : natReprAux (f + 1) n = natReprAux f (n / 10) ++ [48 + n % 10] := by
          simp [natReprAux, h10]
        refine ⟨?_, ?_, ?_, ?_⟩
        · intro d hd
          rw [hexp] at hd
          rcases List.mem_append.mp hd with hd | hd
          · exact ihd d hd
          · simp at hd
            simp [isDigitCP]
            omega
        · rw [hexp, digitsToNat_append_single, ihv]
          omega
        · intro h0; omega
        · intro _
          obtain ⟨c, t, hct, hc1, hc2⟩ := ihh (by omega)
          exact ⟨c, t ++ [48 + n % 10], by rw [hexp, hct]; simp, hc1, hc2⟩

/-- `natRepr` facts at the standard fuel. -/
theorem natRepr_spec (n : Nat) :
    (∀ d ∈ natRepr n, isDigitCP d = true)
    ∧ digitsToNat (natRepr n) = n
    ∧ (n = 0 → natRepr n = [48])
    ∧ (1 ≤ n → ∃ c t, natRepr n = c :: t ∧ 49 ≤ c ∧ c ≤ 57) :=
  natReprAux_spec (n + 1) n (by omega)

/-- A maximal digit run splits off exactly. -/
theorem spanDigits_append : ∀ (ds r : List Nat),
    (∀ d ∈ ds, isDigitCP d = true) →
    (∀ c t, r = c :: t → isDigitCP c = false) →
    spanDigits (ds ++ r) = (ds, r) := by
  intro ds
  induction ds with
  | nil =>
      intro r _ hr
      cases r with
      | nil => rfl
      | cons c t => simp [spanDigits, hr c t rfl]
  | cons d ds ih =>
      intro r hds hr
      have hd : isDigitCP d = true := hds d (by simp)
      simp [spanDigits, hd, ih r (fun x hx => hds x (by simp [hx])) hr]

/-- `numStop` input does not begin with a digit. -/
theorem numStop_not_digit (r : List Nat) (h : numStop r = true) :
    ∀ c t, r = c :: t → isDigitCP c = false := by
  intro c t hct
  subst hct
  simp [numStop] at h
  simp [h.1]

/-- `numStop` input starts no fraction or exponent part. -/
theorem floatCont_false (r : List Nat) (h : numStop r = true) : floatCont r = false := by
  cases r with
  | nil => rfl
  | cons c t =>
      have h1 : isDigitCP c = false ∧ ¬(c = 46) ∧ ¬(c = 101) ∧ ¬(c = 69) := by
        simpa [numStop, and_assoc] using h
      simp [floatCont, h1.2.1, h1.2.2.1, h1.2.2.2]

/-- Parsing the textual form of a natural number stops exactly at a
non-digit. -/
theorem parseUInt_natRepr (n : Nat) (rest : List Nat)
    (hr : ∀ c t, rest = c :: t → isDigitCP c = false) :
    parseUInt (natRepr n ++ rest) = some (n, rest) := by
  obtain ⟨hdig, hval, hzero, hpos⟩ := natRepr_spec n
  by_cases h0 : n = 0
  · subst h0
    rw [hzero rfl]
    rfl
  · obtain ⟨c, t, hct, hc1, hc2⟩ := hpos (by omega)
    have hteq : natRepr n ++ rest = c :: (t ++ rest) := by rw [hct]; rfl
    rw [hteq]
    have hc48 : ¬(c = 48) := by omega
    have hspan : spanDigits (t ++ rest) = (t, rest) := by
      refine spanDigits_append t rest (fun d hd => hdig d ?_) hr
      rw [hct]
      simp [hd]
    have hfold : digitsToNat (c :: t) = n := by rw [← hct]; exact hval
    simp [parseUInt, hc48, hspan, hfold, hc1, hc2]

/-- Parsing the textual form of an integer stops exactly at a `numStop`
continuation. -/
theorem parseNumber_intRepr (n : Int) (rest : List Nat) (h : numStop rest = true) :
    parseNumber (intRepr n ++ rest) = some (n, rest) := by
  have hfc := floatCont_false rest h
  have hnd := numStop_not_digit rest h
  by_cases hneg : n < 0
  · have hsplit : intRepr n ++ rest = 45 :: (natRepr n.natAbs ++ rest) := by
      simp [intRepr, hneg]
    rw [hsplit]
    simp only [parseNumber]
    rw [parseUInt_natRepr n.natAbs rest hnd]
    simp only [hfc, Bool.false_eq_true, if_false, Option.some.injEq, Prod.mk.injEq]
    exact ⟨by omega, trivial⟩
  · have hsplit : intRepr n ++ rest = natRepr n.toNat ++ rest := by
      simp [intRepr, hneg]
    rw [hsplit]
    obtain ⟨hdig, hval, hzero, hpos⟩ := natRepr_spec n.toNat
    have hshape : ∃ c t, natRepr n.toNat ++ rest = c :: t ∧ isDigitCP c = true := by
      by_cases h0 : n.toNat = 0
      · rw [hzero h0]
        exact ⟨48, rest, rfl, by simp [isDigitCP]⟩
      · obtain ⟨c, t, hct, hc1, hc2⟩ := hpos (by omega)
        rw [hct]
        exact ⟨c, t ++ rest, rfl, by simp [isDigitCP]; omega⟩
    obtain ⟨c, t, hct, hcdig⟩ := hshape
    have hc45 : ¬(c = 45) := by simp [isDigitCP] at hcdig; omega
    rw [hct]
    rw [parseNumber.eq_def]
    split
    · rename_i r heq
      exfalso
      injection heq with hch _
      exact hc45 hch
    · rw [← hct, parseUInt_natRepr n.toNat rest hnd]
      simp only [hfc, Bool.false_eq_true, if_false, Option.some.injEq, Prod.mk.injEq]
      exact ⟨Int.toNat_of_nonneg (by omega), trivial⟩

/-! ### String escapes and their parse -/

/-- One hex digit decodes back. -/
theorem hexVal_hexDigitCP (d : Nat) (h : d < 16) : hexVal (hexDigitCP d) = some d := by
  interval_cases d <;> decide

/-- Four hex digits decode back for values below `2^16`. -/
theorem hexVal4_hex4 (n : Nat) (h : n < 65536) :
    hexVal4 (hexDigitCP (n / 4096 % 16)) (hexDigitCP (n / 256 % 16))
      (hexDigitCP (n / 16 % 16)) (hexDigitCP (n % 16)) = some n := by
  have h1 := hexVal_hexDigitCP (n / 4096 % 16) (by omega)
  have h2 := hexVal_hexDigitCP (n / 256 % 16) (by omega)
  have h3 := hexVal_hexDigitCP (n / 16 % 16) (by omega)
  have h4 := hexVal_hexDigitCP (n % 16) (by omega)
  simp [hexVal4, h1, h2, h3, h4]
  omega

/-- Parsing undoes the escape of one scalar code point, whatever follows. -/
theorem parseStringBody_escCode (c : Nat) (hc : scalarCP c = true) (t : List Nat) :
    parseStringBody (escCode c ++ t) = consFst c (parseStringBody t) := by
  have hcs : c < 55296 ∨ (57344 ≤ c ∧ c < 1114112) := by
    simpa [scalarCP] using hc
  by_cases h92 : c = 92
  · subst h92; simp [escCode, parseStringBody, parseEscape, simpleEsc]
  by_cases h34 : c = 34
  · subst h34; simp [escCode, parseStringBody, parseEscape, simpleEsc]
  by_cases h8 : c = 8
  · subst h8; simp [escCode, parseStringBody, parseEscape, simpleEsc]
  by_cases h9 : c = 9
  · subst h9; simp [escCode, parseStringBody, parseEscape, simpleEsc]
  by_cases h10 : c = 10
  · subst h10; simp [escCode, parseStringBody, parseEscape, simpleEsc]
  by_cases h12 : c = 12
  · subst h12; simp [escCode, parseStringBody, parseEscape, simpleEsc]
  by_cases h13 : c = 13
  · subst h13; simp [escCode, parseStringBody, parseEscape, simpleEsc]
  by_cases hlit : 32 ≤ c ∧ c ≤ 126
  · have he : escCode c ++ t = c :: t := by
      simp [escCode, h92, h34, h8, h9, h10, h12, h13, hlit.1, hlit.2]
    rw [he, parseStringBody]
    rw [if_neg h34, if_neg h92, if_neg (by omega : ¬(c < 32))]
  have hlitB : ¬((32 ≤ c && c ≤ 126) = true) := by simp; omega
  by_cases hbmp : c < 65536
  · have he : escCode c ++ t = 92 :: 117 :: (hex4 c ++ t) := by
      rw [escCode]
      rw [if_neg h92, if_neg h34, if_neg h8, if_neg h9, if_neg h10, if_neg h12, if_neg h13,
        if_neg hlitB, if_pos hbmp]
      simp
    rw [he, hex4]
    simp only [List.cons_append, List.nil_append]
    have hsur1 : ¬((55296 ≤ c ∧ c ≤ 56319)) := by omega
    have hsur2 : ¬((56320 ≤ c ∧ c ≤ 57343)) := by omega
    simp [parseStringBody, parseEscape, parseUEscape, hexVal4_hex4 c hbmp, hsur1, hsur2]
  · have hup : 65536 ≤ c ∧ c < 1114112 := by omega
    have hhi : 55296 + (c - 65536) / 1024 < 65536 := by omega
    have hlo : 56320 + (c - 65536) % 1024 < 65536 := by omega
    have he : escCode c ++ t =
        92 :: 117 :: (hex4 (55296 + (c - 65536) / 1024) ++
          (92 :: 117 :: (hex4 (56320 + (c - 65536) % 1024) ++ t))) := by
      rw [escCode]
      rw [if_neg h92, if_neg h34, if_neg h8, if_neg h9, if_neg h10, if_neg h12, if_neg h13,
        if_neg hlitB, if_neg hbmp]
      simp
    rw [he, hex4, hex4]
    simp only [List.cons_append, List.nil_append]
    have hr1 : (55296 ≤ 55296 + (c - 65536) / 1024 ∧ 55296 + (c - 65536) / 1024 ≤ 56319) := by
      omega
    have hr2 : (56320 ≤ 56320 + (c - 65536) % 1024 ∧ 56320 + (c - 65536) % 1024 ≤ 57343) := by
      omega
    have hco : 65536 + (55296 + (c - 65536) / 1024 - 55296) * 1024 +
        (56320 + (c - 65536) % 1024 - 56320) = c := by omega
    simp [parseStringBody, parseEscape, parseUEscape, parseLowSurrogate,
      hexVal4_hex4 _ hhi, hexVal4_hex4 _ hlo, hr1.1, hr1.2, hr2.1, hr2.2, hco]
    have harith : 65536 + (c - 65536) / 1024 * 1024 + (c - 65536) % 1024 = c := by omega
    rw [harith]

/-- Parsing undoes the escaping of a whole scalar-value string up to its
closing quote. -/
theorem parseStringBody_escString (s : List Nat) (hs : ∀ c ∈ s, scalarCP c = true)
    (t : List Nat) : parseStringBody (escString s ++ (34 :: t)) = some (s, t) := by
  induction s with
  | nil => simp [escString, parseStringBody]
  | cons c s ih =>
      have hstep : escString (c :: s) ++ (34 :: t) = escCode c ++ (escString s ++ (34 :: t)) := by
        simp [escString]
      rw [hstep, parseStringBody_escCode c (hs c (by simp)) _,
        ih (fun x hx => hs x (by simp [hx]))]
      rfl

/-! ### Whitespace transparency and token heads -/

/-- `skipWs` keeps a non-whitespace head. -/
theorem skipWs_not_ws (c : Nat) (s : List Nat) (h : isWsCP c = false) :
    skipWs (c :: s) = c :: s := by
  simp [skipWs, h]

/-- `parseValue` ignores leading whitespace. -/
theorem parseValue_ws (f : Nat) (c : Nat) (s : List Nat) (h : isWsCP c = true) :
    parseValue f (c :: s) = parseValue f s := by
  cases f with
  | zero => simp [parseValue]
  | succ f =>
      simp only [parseValue]
      rw [skipWs, if_pos h]

/-- `parseItems` ignores leading whitespace. -/
theorem parseItems_ws (f : Nat) (c : Nat) (s : List Nat) (h : isWsCP c = true) :
    parseItems f (c :: s) = parseItems f s := by
  cases f with
  | zero => simp [parseItems]
  | succ f =>
      simp only [parseItems]
      rw [parseValue_ws f c s h]

/-- `parsePairs` ignores leading whitespace. -/
theorem parsePairs_ws (f : Nat) (c : Nat) (s : List Nat) (h : isWsCP c = true) :
    parsePairs f (c :: s) = parsePairs f s := by
  cases f with
  | zero => simp [parsePairs]
  | succ f =>
      simp only [parsePairs]
      rw [skipWs, if_pos h]

/-- The integer rendering is a nonempty list. -/
theorem intRepr_cons (n : Int) : ∃ c t, intRepr n = c :: t := by
  by_cases hn : n < 0
  · exact ⟨45, natRepr n.natAbs, by simp [intRepr, hn]⟩
  · obtain ⟨_, _, hzero, hpos⟩ := natRepr_spec n.toNat
    by_cases h0 : n.toNat = 0
    · exact ⟨48, [], by simp [intRepr, hn, hzero h0]⟩
    · obtain ⟨c, t, hct, _, _⟩ := hpos (by omega)
      exact ⟨c, t, by simp [intRepr, hn, hct]⟩

/-- Every `dumps` rendering starts with a recognizable value head: a
quote, bracket, brace, keyword letter, minus sign or digit. -/
theorem dumps_head (v : PyValue) : ∃ c t, dumps v = c :: t ∧
    (c = 34 ∨ c = 91 ∨ c = 123 ∨ c = 110 ∨ c = 116 ∨ c = 102 ∨ c = 45 ∨ isDigitCP c = true) := by
  cases v with
  | null => exact ⟨110, _, rfl, by simp⟩
  | bool b =>
      cases b with
      | true => exact ⟨116, _, rfl, by simp⟩
      | false => exact ⟨102, _, rfl, by simp⟩
  | int n =>
      by_cases hn : n < 0
      · exact ⟨45, natRepr n.natAbs ++ [], by simp [dumps, intRepr, hn], by simp⟩
      · obtain ⟨_, _, hzero, hpos⟩ := natRepr_spec n.toNat
        by_cases h0 : n.toNat = 0
        · refine ⟨48, [], by simp [dumps, intRepr, hn, hzero h0], ?_⟩
          right; right; right; right; right; right; right
          decide
        · obtain ⟨c, t, hct, hc1, hc2⟩ := hpos (by omega)
          refine ⟨c, t, by simp [dumps, intRepr, hn, hct], ?_⟩
          right; right; right; right; right; right; right
          simp [isDigitCP]
          omega
  | str s => exact ⟨34, _, rfl, by simp⟩
  | list xs =>
      cases xs with
      | nil => exact ⟨91, _, rfl, by simp⟩
      | cons x xs => exact ⟨91, _, rfl, by simp⟩
  | dict es =>
      cases es with
      | nil => exact ⟨123, _, rfl, by simp⟩
      | cons e es => exact ⟨123, _, rfl, by simp⟩

/-- Every value node costs at least one unit. -/
theorem nodes_pos (v : PyValue) : 1 ≤ nodes v := by
  cases v <;> simp [nodes]

mutual
/-- The node measure never exceeds the rendering's length — so input
length works as parser fuel. -/
theorem nodes_le_dumps : ∀ v, nodes v ≤ (dumps v).length
  | .null => by simp [nodes, dumps]
  | .bool b => by cases b <;> simp [nodes, dumps]
  | .int n => by
      obtain ⟨c, t, hct⟩ := intRepr_cons n
      simp [nodes, dumps, hct]
  | .str s => by simp [nodes, dumps]
  | .list [] => by simp [nodes, nodesL, dumps]
  | .list (x :: xs) => by
      have h1 := nodes_le_dumps x
      have h2 := nodesL_le_tail xs
      simp [nodes, nodesL, dumps]
      omega
  | .dict [] => by simp [nodes, nodesE, dumps]
  | .dict ((k, v) :: es) => by
      have h1 := nodes_le_dumps v
      have h2 := nodesE_le_tail es
      simp [nodes, nodesE, dumps, dumpsEntry]
      omega

/-- Tail version of `nodes_le_dumps` for array continuations. -/
theorem nodesL_le_tail : ∀ xs, nodesL xs ≤ (dumpsListTail xs).length
  | [] => by simp [nodesL, dumpsListTail]
  | x :: xs => by
      have h1 := nodes_le_dumps x
      have h2 := nodesL_le_tail xs
      simp [nodesL, dumpsListTail]
      omega

/-- Tail version of `nodes_le_dumps` for object continuations. -/
theorem nodesE_le_tail : ∀ es, nodesE es ≤ (dumpsEntriesTail es).length
  | [] => by simp [nodesE, dumpsEntriesTail]
  | (k, v) :: es => by
      have h1 := nodes_le_dumps v
      have h2 := nodesE_le_tail es
      simp [nodesE, dumpsEntriesTail, dumpsEntry]
      omega
end

/-! ### Conversion output is round-trippable -/

/-- Digits are scalar values. -/
theorem scalarCP_of_digit (d : Nat) (h : isDigitCP d = true) : scalarCP d = true := by
  simp [isDigitCP] at h
  simp [scalarCP]
  omega

/-- Integer renderings are scalar-value strings. -/
theorem scalarStr_intRepr (n : Int) : scalarStr (intRepr n) = true := by
  obtain ⟨hdig, _, _, _⟩ := natRepr_spec n.natAbs
  obtain ⟨hdig2, _, _, _⟩ := natRepr_spec n.toNat
  by_cases hn : n < 0 <;> simp [intRepr, hn, scalarStr, List.all_eq_true]
  · constructor
    · decide
    · intro c hc
      exact scalarCP_of_digit c (hdig c hc)
  · intro c hc
    exact scalarCP_of_digit c (hdig2 c hc)

/-- `str(key)` always yields a scalar-value string when the key's own
string, if any, is one. -/
theorem scalarStr_pyStr (k : PyKey) (h : keyStrOK k = true) : scalarStr (pyStr k) = true := by
  cases k with
  | str s => simpa [pyStr, keyStrOK] using h
  | int n => exact scalarStr_intRepr n
  | bool b => cases b <;> decide
  | none => decide

/-- `cleanE` as a membership statement. -/
theorem cleanE_iff : ∀ l, cleanE l = true ↔ ∀ e ∈ l, cleanKey e.1 = true ∧ Clean e.2 = true
  | [] => by simp [cleanE]
  | (k, v) :: l => by simp [cleanE, cleanE_iff l]

mutual
/-- On trees whose strings are scalar values, the conversion's output is
`Clean`: scalar strings, scalar string keys, pairwise-distinct keys. -/
theorem Clean_conv : ∀ v, WFstrings v = true → Clean (_convert_key_to_str v) = true
  | .null, _ => rfl
  | .bool _, _ => rfl
  | .int _, _ => rfl
  | .str s, h => by simpa [WFstrings, _convert_key_to_str, Clean] using h
  | .list xs, h => by
      simp only [_convert_key_to_str, Clean]
      exact Clean_convL xs (by simpa [WFstrings] using h)
  | .dict es, h => by
      have hE := Clean_convE es (by simpa [WFstrings] using h)
      simp only [_convert_key_to_str, Clean, Bool.and_eq_true]
      exact ⟨dictFromPairs_keysNodup (convEntries es),
        (cleanE_iff _).mpr (dictFromPairs_forall (Q := fun k => cleanKey k = true)
          (R := fun v => Clean v = true) (convEntries es) hE)⟩

/-- `Clean_conv` over list elements. -/
theorem Clean_convL : ∀ xs, wfStringsL xs = true → cleanL (convList xs) = true
  | [], _ => rfl
  | x :: xs, h => by
      have h' : WFstrings x = true ∧ wfStringsL xs = true := by simpa [wfStringsL] using h
      simp [convList, cleanL, Clean_conv x h'.1, Clean_convL xs h'.2]

/-- Every binding the comprehension produces is `Clean` componentwise. -/
theorem Clean_convE : ∀ es, wfStringsE es = true →
    ∀ e ∈ convEntries es, cleanKey e.1 = true ∧ Clean e.2 = true
  | [], _, e, he => absurd he (by simp [convEntries])
  | (k, v) :: es, h, e, he => by
      have h' : keyStrOK k = true ∧ WFstrings v = true ∧ wfStringsE es = true := by
        simpa [wfStringsE, and_assoc] using h
      rw [convEntries] at he
      rcases List.mem_cons.mp he with rfl | he
      · exact ⟨by simpa [cleanKey] using scalarStr_pyStr k h'.1, Clean_conv v h'.2.1⟩
      · exact Clean_convE es h'.2.2 e he
end

/-! ### The parser undoes the serializer -/

/-- The integer rendering's head is a minus sign or a digit. -/
theorem intRepr_head (n : Int) : ∃ c t, intRepr n = c :: t ∧ (c = 45 ∨ (48 ≤ c ∧ c ≤ 57)) := by
  by_cases hn : n < 0
  · exact ⟨45, natRepr n.natAbs, by simp [intRepr, hn], Or.inl rfl⟩
  · obtain ⟨_, _, hzero, hpos⟩ := natRepr_spec n.toNat
    by_cases h0 : n.toNat = 0
    · exact ⟨48, [], by simp [intRepr, hn, hzero h0], Or.inr (by omega)⟩
    · obtain ⟨c, t, hct, hc1, hc2⟩ := hpos (by omega)
      exact ⟨c, t, by simp [intRepr, hn, hct], Or.inr (by omega)⟩

/-- A rendering's head is not whitespace and not a closer. -/
theorem dumps_head_props (v : PyValue) :
    ∃ c t, dumps v = c :: t ∧ isWsCP c = false ∧ ¬(c = 93) ∧ ¬(c = 125) := by
  obtain ⟨c, t, hct, hd⟩ := dumps_head v
  have hA : c = 34 ∨ c = 91 ∨ c = 123 ∨ c = 110 ∨ c = 116 ∨ c = 102 ∨ c = 45 ∨
      (48 ≤ c ∧ c ≤ 57) := by simpa [isDigitCP] using hd
  refine ⟨c, t, hct, ?_, by omega, by omega⟩
  simp [isWsCP]
  omega

/-- The key round-trip induction, on fuel: `parseValue` undoes `dumps` on
every `Clean` value (given a `numStop` continuation), `parseItems` undoes
a nonempty array rendering, `parsePairs` undoes a nonempty object
rendering. -/
theorem parse_dumps_master : ∀ f : Nat,
    (∀ v rest, Clean v = true → numStop rest = true → nodes v ≤ f →
      parseValue f (dumps v ++ rest) = some (v, rest))
    ∧ (∀ x xs rest, Clean x = true → cleanL xs = true → nodes x + nodesL xs + 1 ≤ f →
      parseItems f (dumps x ++ (dumpsListTail xs ++ (93 :: rest))) = some (x :: xs, rest))
    ∧ (∀ k v es rest, cleanKey k = true → Clean v = true → cleanE es = true →
      nodes v + nodesE es + 1 ≤ f →
      parsePairs f (dumpsEntry (k, v) ++ (dumpsEntriesTail es ++ (125 :: rest)))
        = some ((k, v) :: es, rest)) := by
  intro f
  induction f with
  | zero =>
      refine ⟨?_, ?_, ?_⟩
      · intro v rest _ _ hf
        have := nodes_pos v
        omega
      · intro x xs rest _ _ hf
        have := nodes_pos x
        omega
      · intro k v es rest _ _ _ hf
        have := nodes_pos v
        omega
  | succ f ih =>
      obtain ⟨ihV, ihI, ihP⟩ := ih
      refine ⟨?_, ?_, ?_⟩
      · intro v rest hclean hstop hf
        cases v with
        | null =>
            simp [dumps, parseValue, skipWs, isWsCP, parseValueWs, parseValueHead, parseNullLit]
        | bool b =>
            cases b <;>
              simp [dumps, parseValue, skipWs, isWsCP, parseValueWs, parseValueHead,
                parseTrueLit, parseFalseLit]
        | int n =>
            obtain ⟨c, t, hct, hhd⟩ := intRepr_head n
            have h34 : ¬(c = 34) := by omega
            have h91 : ¬(c = 91) := by omega
            have h123 : ¬(c = 123) := by omega
            have h110 : ¬(c = 110) := by omega
            have h116 : ¬(c = 116) := by omega
            have h102 : ¬(c = 102) := by omega
            have hws : isWsCP c = false := by simp [isWsCP]; omega
            have hre : dumps (.int n) ++ rest = c :: (t ++ rest) := by simp [dumps, hct]
            rw [hre, parseValue, skipWs_not_ws _ _ hws, parseValueWs, parseValueHead]
            rw [if_neg h34, if_neg h91, if_neg h123, if_neg h110, if_neg h116, if_neg h102]
            have hback : (c :: (t ++ rest) : List Nat) = intRepr n ++ rest := by simp [hct]
            rw [hback, parseNumber_intRepr n rest hstop]
            rfl
        | str s =>
            have hs : ∀ c ∈ s, scalarCP c = true := by
              simpa [Clean, scalarStr, List.all_eq_true] using hclean
            have hre : dumps (.str s) ++ rest = 34 :: (escString s ++ (34 :: rest)) := by
              simp [dumps]
            rw [hre, parseValue, skipWs_not_ws _ _ (by decide), parseValueWs, parseValueHead]
            rw [if_pos rfl, parseStringBody_escString s hs rest]
            rfl
        | list xs =>
            cases xs with
            | nil =>
                have hre : dumps (.list []) ++ rest = 91 :: 93 :: rest := by simp [dumps]
                rw [hre, parseValue, skipWs_not_ws _ _ (by decide), parseValueWs, parseValueHead]
                rw [if_neg (by decide : ¬(91 = 34)), if_pos rfl,
                  skipWs_not_ws _ _ (by decide), parseArrayBody]
            | cons x xs =>
                have hcx : Clean x = true ∧ cleanL xs = true := by
                  simpa [Clean, cleanL] using hclean
                have hfx : nodes x + nodesL xs + 1 ≤ f := by
                  simp [nodes, nodesL] at hf
                  omega
                have hre : dumps (.list (x :: xs)) ++ rest =
                    91 :: (dumps x ++ (dumpsListTail xs ++ (93 :: rest))) := by simp [dumps]
                rw [hre, parseValue, skipWs_not_ws _ _ (by decide), parseValueWs, parseValueHead]
                rw [if_neg (by decide : ¬(91 = 34)), if_pos rfl]
                obtain ⟨ch, th, hch, hwsh, h93, _⟩ := dumps_head_props x
                have hR : dumps x ++ (dumpsListTail xs ++ (93 :: rest)) =
                    ch :: (th ++ (dumpsListTail xs ++ (93 :: rest))) := by simp [hch]
                rw [hR, skipWs_not_ws _ _ hwsh, parseArrayBody]
                · rw [← hR, ihI x xs rest hcx.1 hcx.2 hfx]
                  rfl
                · intro r2 hcontra
                  injection hcontra with hh _
                  exact h93 hh
        | dict es =>
            cases es with
            | nil =>
                have hre : dumps (.dict []) ++ rest = 123 :: 125 :: rest := by simp [dumps]
                rw [hre, parseValue, skipWs_not_ws _ _ (by decide), parseValueWs, parseValueHead]
                rw [if_neg (by decide : ¬(123 = 34)), if_neg (by decide : ¬(123 = 91)),
                  if_pos rfl, skipWs_not_ws _ _ (by decide), parseObjBody]
            | cons e es =>
                obtain ⟨k, v⟩ := e
                have hkv : keysNodup (keysOf ((k, v) :: es)) = true ∧ cleanKey k = true ∧
                    Clean v = true ∧ cleanE es = true := by
                  simpa [Clean, cleanE, and_assoc] using hclean
                have hfv : nodes v + nodesE es + 1 ≤ f := by
                  simp [nodes, nodesE] at hf
                  omega
                have hre : dumps (.dict ((k, v) :: es)) ++ rest =
                    123 :: (dumpsEntry (k, v) ++ (dumpsEntriesTail es ++ (125 :: rest))) := by
                  simp [dumps]
                rw [hre, parseValue, skipWs_not_ws _ _ (by decide), parseValueWs, parseValueHead]
                rw [if_neg (by decide : ¬(123 = 34)), if_neg (by decide : ¬(123 = 91)),
                  if_pos rfl]
                have hRe : dumpsEntry (k, v) ++ (dumpsEntriesTail es ++ (125 :: rest)) =
                    34 :: (escString (jsonKeyStr k) ++
                      (34 :: 58 :: 32 :: (dumps v ++ (dumpsEntriesTail es ++ (125 :: rest))))) := by
                  simp [dumpsEntry]
                rw [hRe, skipWs_not_ws _ _ (by decide), parseObjBody]
                · rw [← hRe, ihP k v es rest hkv.2.1 hkv.2.2.1 hkv.2.2.2 hfv]
                  simp [dictFromPairs_eq_self _ hkv.1]
                · intro r2 hcontra
                  injection hcontra with hh _
                  exact absurd hh (by decide)
      · intro x xs rest hcx hcxs hf
        rw [parseItems]
        have hstop' : numStop (dumpsListTail xs ++ (93 :: rest)) = true := by
          cases xs <;> simp [dumpsListTail, numStop, isDigitCP]
        rw [ihV x (dumpsListTail xs ++ (93 :: rest)) hcx hstop' (by omega)]
        rw [parseItemsAfter]
        cases xs with
        | nil =>
            simp only [dumpsListTail, List.nil_append]
            rw [skipWs_not_ws _ _ (by decide), parseItemsSep]
        | cons y ys =>
            have hR2 : dumpsListTail (y :: ys) ++ (93 :: rest) =
                44 :: 32 :: (dumps y ++ (dumpsListTail ys ++ (93 :: rest))) := by
              simp [dumpsListTail]
            have hcy : Clean y = true ∧ cleanL ys = true := by simpa [cleanL] using hcxs
            have hfy : nodes y + nodesL ys + 1 ≤ f := by
              simp [nodesL] at hf
              have := nodes_pos x
              omega
            rw [hR2, skipWs_not_ws _ _ (by decide), parseItemsSep,
              parseItems_ws f 32 _ (by decide), ihI y ys rest hcy.1 hcy.2 hfy]
            rfl
      · intro k v es rest hck hcv hces hf
        cases k with
        | int n => exact absurd hck (by simp [cleanKey])
        | bool b => exact absurd hck (by simp [cleanKey])
        | none => exact absurd hck (by simp [cleanKey])
        | str s =>
        have hs : ∀ c ∈ s, scalarCP c = true := by
          simpa [cleanKey, scalarStr, List.all_eq_true] using hck
        rw [parsePairs]
        have hRe : dumpsEntry (.str s, v) ++ (dumpsEntriesTail es ++ (125 :: rest)) =
            34 :: (escString s ++
              (34 :: 58 :: 32 :: (dumps v ++ (dumpsEntriesTail es ++ (125 :: rest))))) := by
          simp [dumpsEntry, jsonKeyStr]
        rw [hRe, skipWs_not_ws _ _ (by decide), parsePairsStart,
          parseStringBody_escString s hs _, parsePairsKey,
          skipWs_not_ws _ _ (by decide), parsePairsColon,
          parseValue_ws f 32 _ (by decide)]
        have hstop' : numStop (dumpsEntriesTail es ++ (125 :: rest)) = true := by
          cases es <;> simp [dumpsEntriesTail, numStop, isDigitCP]
        rw [ihV v (dumpsEntriesTail es ++ (125 :: rest)) hcv hstop' (by omega)]
        rw [parsePairsValue]
        cases es with
        | nil =>
            simp only [dumpsEntriesTail, List.nil_append]
            rw [skipWs_not_ws _ _ (by decide), parsePairsSep]
        | cons e2 es2 =>
            obtain ⟨k2, v2⟩ := e2
            have hR4 : dumpsEntriesTail ((k2, v2) :: es2) ++ (125 :: rest) =
                44 :: 32 :: (dumpsEntry (k2, v2) ++ (dumpsEntriesTail es2 ++ (125 :: rest))) := by
              simp [dumpsEntriesTail]
            have hc2 : cleanKey k2 = true ∧ Clean v2 = true ∧ cleanE es2 = true := by
              simpa [cleanE, and_assoc] using hces
            have hf2 : nodes v2 + nodesE es2 + 1 ≤ f := by
              simp [nodesE] at hf
              have := nodes_pos v
              omega
            rw [hR4, skipWs_not_ws _ _ (by decide), parsePairsSep,
              parsePairs_ws f 32 _ (by decide), ihP k2 v2 es2 rest hc2.1 hc2.2.1 hc2.2.2 hf2]
            rfl


/-- `json.loads` undoes `json.dumps` on every `Clean` value. -/
theorem loads_dumps (v : PyValue) (h : Clean v = true) : loads (dumps v) = some v := by
  have hfuel : nodes v ≤ (dumps v).length + 1 := by
    have := nodes_le_dumps v
    omega
  have hmain := (parse_dumps_master ((dumps v).length + 1)).1 v [] h (by simp [numStop]) hfuel
  rw [List.append_nil] at hmain
  simp [loads, hmain, skipWs]

/-- C2: serializing a value tree through the sync pipeline (key coercion
then JSON encoding, as `_sync` does) and deserializing the bytes (as
`_load` does) yields the tree back, modulo the key coercion: the result
is exactly the key-coerced form of the input.  `WFstrings` asks only that
the tree's strings consist of Unicode scalar values — the well-formedness
every ordinary Python text string has (numbers are modelled as integers;
floats are outside the model). -/
theorem sync_load_roundtrip (T : PyValue) (h : WFstrings T = true) :
    loads (dumps (_convert_key_to_str T)) = some (_convert_key_to_str T) :=
  loads_dumps (_convert_key_to_str T) (Clean_conv T h)

/-- Witness for `sync_load_roundtrip` on a nested tree with a non-string
key, a negative number, strings and containers. -/
theorem sync_load_roundtrip_instance :
    loads (dumps (_convert_key_to_str
        (PyValue.dict [(PyKey.int 1, PyValue.list [PyValue.str [104, 105], PyValue.null]),
          (PyKey.str [107], PyValue.int (-5))])))
      = some (_convert_key_to_str
        (PyValue.dict [(PyKey.int 1, PyValue.list [PyValue.str [104, 105], PyValue.null]),
          (PyKey.str [107], PyValue.int (-5))])) :=
  sync_load_roundtrip
    (PyValue.dict [(PyKey.int 1, PyValue.list [PyValue.str [104, 105], PyValue.null]),
      (PyKey.str [107], PyValue.int (-5))]) (by decide)

/-- C4: loading a document whose backing file does not exist does not
raise: `_load_from_file` turns the ENOENT `IOError` into the byte encoding
of JSON `null`, and `_load` — reading from disk directly, or priming the
buffer on a miss — returns the null document. -/
theorem load_missing_file_returns_null
    (g : Nat) (inst : JSONCollectionState) (st : FileBufferState)
    (hmiss : st.cache inst._filename = Option.none) :
    _load_from_file (ReadOutcome.ioerr ENOENT) = .ok (some jsonNullBlob)
    ∧ (_load g inst st (ReadOutcome.ioerr ENOENT)).2 =
        .ok (.ok PyValue.null,
             (if _in_buffered_mode g || decide (inst._buffered ≠ 0) then
                _store_to_buffer st inst._filename (some jsonNullBlob) true
              else st), 1) := by
  have hval : json_loads (some jsonNullBlob) = .ok PyValue.null := by
    simp [json_loads, jsonNullBlob, loads_dumps PyValue.null rfl]
  refine ⟨rfl, ?_⟩
  unfold _load
  by_cases h : (_in_buffered_mode g || decide (inst._buffered ≠ 0)) = true
  · simp [h, hmiss, _load_from_file, hval]
    split <;> rfl
  · simp at h
    simp [h, _load_from_file, hval]

/-- Witness for `load_missing_file_returns_null` on an empty buffer. -/
theorem load_missing_file_returns_null_instance :
    (_load 0 (JSONCollection_init id (some "/d/f.json") false)
        ⟨fun _ => Option.none, fun _ => Option.none⟩ (ReadOutcome.ioerr ENOENT)).2 =
      .ok (.ok PyValue.null,
           (if _in_buffered_mode 0
               || decide ((JSONCollection_init id (some "/d/f.json") false)._buffered ≠ 0) then
              _store_to_buffer ⟨fun _ => Option.none, fun _ => Option.none⟩
                (JSONCollection_init id (some "/d/f.json") false)._filename
                (some jsonNullBlob) true
            else ⟨fun _ => Option.none, fun _ => Option.none⟩), 1) :=
  (load_missing_file_returns_null 0 (JSONCollection_init id (some "/d/f.json") false)
    ⟨fun _ => Option.none, fun _ => Option.none⟩ rfl).2

end Signac
